import Mathlib

/-!
Shallow embedding of the retrieval-and-fallback core of the
KnowledgeBased_Minimal_AI repository:

* `services/knowledge_base_service.py` — chunker (`split_text_with_overlap`),
  ingestion with content-hash deduplication (`ingest_documents`), the query
  engine in both its embedding and lexical variants (`query_knowledge_base`),
  the answer enhancer (`enhance_answer_with_gemini`) and `clean_text`;
* `services/chat_service.py` — the fallback router (`chat`);
* `services/search_service.py` — its `clean_text` / `enhance_with_gemini`.

Machine strings are modelled by Lean `String` (a packed `List Char`), Python
floats by `ℚ`, and calls to external capabilities (md5, the embedding model,
the Gemini HTTP endpoint, the web search) by explicit function or data
parameters.  Fallible external calls are modelled by `Option` / an outcome
datatype.
-/

/-- Whitespace test matching Python `\s` on the ASCII range
(space, tab, newline, carriage return, vertical tab, form feed). -/
def pyIsSpace (c : Char) : Bool :=
  c = ' ' || c = '\t' || c = '\n' || c = '\r' || c = '\x0b' || c = '\x0c'

/-- One pass of Python `str.split()` with no separator argument: `cur` holds
the characters of the token being read, in reverse. -/
def pySplitAux : List Char → List Char → List (List Char)
  | [], cur => if cur = [] then [] else [cur.reverse]
  | c :: cs, cur =>
    if pyIsSpace c then
      if cur = [] then pySplitAux cs [] else cur.reverse :: pySplitAux cs []
    else pySplitAux cs (c :: cur)

/-- Python `str.split()` with no separator argument, on char lists: splits on
runs of whitespace, discarding empty pieces. -/
def pySplitList (l : List Char) : List (List Char) :=
  pySplitAux l []

/-- Python `text.split()`. -/
def pySplit (s : String) : List String :=
  (pySplitList s.data).map String.mk

/-- Python `str.lower()` (ASCII case folding). -/
def pyLower (s : String) : String :=
  String.mk (s.data.map Char.toLower)

/-- Python `str.strip()` with no argument: remove leading and trailing
whitespace. -/
def pyStrip (s : String) : String :=
  String.mk (((s.data.dropWhile pyIsSpace).reverse.dropWhile pyIsSpace).reverse)

/-- Python `s.startswith(pre)`. -/
def pyStartswith (s pre : String) : Bool :=
  pre.data.isPrefixOf s.data

/-- Python `sub in hay` (substring containment). -/
def pyContains (hay sub : String) : Bool :=
  (List.range (hay.data.length + 1)).any (fun i => sub.data.isPrefixOf (hay.data.drop i))

/-- Python `sep.join(parts)`. -/
def pyJoin (sep : String) (parts : List String) : String :=
  String.mk (List.intercalate sep.data (parts.map String.data))

/-- Python `len(s)` (number of characters). -/
def pyLen (s : String) : Nat :=
  s.data.length

/-- Python `s[:n]` (first `n` characters). -/
def pyTake (s : String) (n : Nat) : String :=
  String.mk (s.data.take n)

/-- Python `s + t`. -/
def pyConcat (s t : String) : String :=
  String.mk (s.data ++ t.data)

/-! ## Chunker: `split_text_with_overlap` (services/knowledge_base_service.py)

```python
def split_text_with_overlap(text, chunk_size=500, overlap=50):
    words = text.split()
    chunks = []
    start = 0
    while start < len(words):
        end = min(start + chunk_size, len(words))
        chunk_words = words[start:end]
        chunk_text = ' '.join(chunk_words)
        if chunk_text.strip():
            chunks.append(chunk_text)
        if end >= len(words):
            break
        start = end - overlap
        if start <= 0:
            start = end
    return chunks
```

The `while` loop is not terminating for every parameter choice, so it is
modelled with explicit fuel: `none` means the fuel was exhausted, i.e. the
source loop ran for more than `fuel` iterations.  The loop below records the
`(start, end)` window of every chunk it appends; the chunk's text is exactly
the joined word slice of that window (`chunk_of_range`). -/

/-- The chunk text built for the window `[r.1, r.2)`:
`' '.join(words[r.1:r.2])`. -/
def chunk_of_range (words : List String) (r : Nat × Nat) : String :=
  pyJoin " " ((words.drop r.1).take (r.2 - r.1))

/-- The loop body of `split_text_with_overlap`, one constructor case per
iteration, accumulating the `(start, end)` windows of appended chunks. -/
def split_loop (words : List String) (chunk_size overlap : Nat) :
    Nat → Nat → List (Nat × Nat) → Option (List (Nat × Nat))
  | 0, _, _ => none
  | fuel + 1, start, acc =>
    if start < words.length then
      let e := min (start + chunk_size) words.length
      let chunk_text := chunk_of_range words (start, e)
      let acc2 := if pyStrip chunk_text = "" then acc else acc ++ [(start, e)]
      if words.length ≤ e then some acc2
      else split_loop words chunk_size overlap fuel
        (if e - overlap = 0 then e else e - overlap) acc2
    else some acc

/-- The `(start, end)` windows produced by `split_text_with_overlap` on a
token list.  Fuel `words.length + 1` bounds the iteration count whenever the
source loop terminates at all, since a terminating run visits strictly
increasing start indices below `words.length`. -/
def split_ranges (words : List String) (chunk_size overlap : Nat) :
    Option (List (Nat × Nat)) :=
  split_loop words chunk_size overlap (words.length + 1) 0 []

/-- `split_text_with_overlap` from services/knowledge_base_service.py.
`none` models non-termination of the source loop. -/
def split_text_with_overlap (text : String) (chunk_size : Nat := 500)
    (overlap : Nat := 50) : Option (List String) :=
  let words := pySplit text
  (split_ranges words chunk_size overlap).map (·.map (chunk_of_range words))

/-! ## Facts about the string primitives -/

theorem pySplitAux_good (l : List Char) :
    ∀ cur, (∀ c ∈ cur, pyIsSpace c = false) →
      ∀ w ∈ pySplitAux l cur, w ≠ [] ∧ ∀ c ∈ w, pyIsSpace c = false := by
  induction l with
  | nil =>
    intro cur hcur w hw
    by_cases hc : cur = []
    · rw [pySplitAux, if_pos hc] at hw
      simp at hw
    · rw [pySplitAux, if_neg hc] at hw
      rcases List.mem_singleton.mp hw with rfl
      refine ⟨by simpa using hc, ?_⟩
      intro c hcm
      exact hcur c (List.mem_reverse.mp hcm)
  | cons c cs ih =>
    intro cur hcur w hw
    rw [pySplitAux] at hw
    by_cases hsp : pyIsSpace c
    · rw [if_pos hsp] at hw
      by_cases hc : cur = []
      · rw [if_pos hc] at hw
        exact ih [] (by simp) w hw
      · rw [if_neg hc] at hw
        rcases List.mem_cons.mp hw with rfl | hw
        · refine ⟨by simpa using hc, ?_⟩
          intro d hdm
          exact hcur d (List.mem_reverse.mp hdm)
        · exact ih [] (by simp) w hw
    · rw [if_neg hsp] at hw
      refine ih (c :: cur) ?_ w hw
      intro d hd
      rcases List.mem_cons.mp hd with rfl | hd
      · simpa using hsp
      · exact hcur d hd

theorem pySplitList_good (l : List Char) :
    ∀ w ∈ pySplitList l, w ≠ [] ∧ ∀ c ∈ w, pyIsSpace c = false :=
  pySplitAux_good l [] (by simp)

theorem pySplit_good (s : String) :
    ∀ w ∈ pySplit s, w.data ≠ [] ∧ ∀ c ∈ w.data, pyIsSpace c = false := by
  intro w hw
  simp only [pySplit, List.mem_map] at hw
  obtain ⟨t, ht, rfl⟩ := hw
  exact pySplitList_good s.data t ht

theorem pyStrip_ne_empty {s : String} {c : Char} (hc : c ∈ s.data)
    (hcs : pyIsSpace c = false) : pyStrip s ≠ "" := by
  intro h
  have h2 := congrArg String.data h
  simp only [pyStrip, List.reverse_eq_nil_iff] at h2
  rw [List.dropWhile_eq_nil_iff] at h2
  have hcd : c ∈ s.data.dropWhile pyIsSpace := by
    have hsplit := List.takeWhile_append_dropWhile pyIsSpace s.data
    rw [← hsplit] at hc
    rcases List.mem_append.mp hc with h3 | h3
    · exact absurd (List.mem_takeWhile_imp h3) (by simp [hcs])
    · exact h3
  have := h2 c (List.mem_reverse.mpr hcd)
  simp [hcs] at this

theorem pyJoin_strip_ne_empty {ws : List String} (hne : ws ≠ [])
    (hw : ∀ w ∈ ws, w.data ≠ [] ∧ ∀ c ∈ w.data, pyIsSpace c = false) :
    pyStrip (pyJoin " " ws) ≠ "" := by
  obtain ⟨w, rest, rfl⟩ : ∃ w rest, ws = w :: rest := by
    cases ws with
    | nil => exact absurd rfl hne
    | cons w rest => exact ⟨w, rest, rfl⟩
  obtain ⟨hwne, hwc⟩ := hw w (List.mem_cons_self w rest)
  obtain ⟨c, cs, hcw⟩ : ∃ c cs, w.data = c :: cs := by
    cases hd : w.data with
    | nil => exact absurd hd hwne
    | cons c cs => exact ⟨c, cs, rfl⟩
  have hmem : c ∈ (pyJoin " " (w :: rest)).data := by
    show c ∈ List.intercalate " ".data ((w :: rest).map String.data)
    cases rest with
    | nil => simp [List.intercalate, hcw]
    | cons b t => simp [List.intercalate, hcw]
  exact pyStrip_ne_empty hmem (hwc c (by rw [hcw]; exact List.mem_cons_self c cs))

/-! ## Behaviour of the chunker loop -/

theorem split_loop_succ (words : List String) (W O fuel start : Nat)
    (acc : List (Nat × Nat)) :
    split_loop words W O (fuel + 1) start acc =
      if start < words.length then
        if words.length ≤ min (start + W) words.length then
          some (if pyStrip (chunk_of_range words (start, min (start + W) words.length)) = ""
                then acc else acc ++ [(start, min (start + W) words.length)])
        else split_loop words W O fuel
          (if min (start + W) words.length - O = 0 then min (start + W) words.length
           else min (start + W) words.length - O)
          (if pyStrip (chunk_of_range words (start, min (start + W) words.length)) = ""
           then acc else acc ++ [(start, min (start + W) words.length)])
      else some acc := rfl

theorem chunk_strip_ne_empty {words : List String}
    (hw : ∀ w ∈ words, w.data ≠ [] ∧ ∀ c ∈ w.data, pyIsSpace c = false)
    {s e : Nat} (hse : s < e) (heN : e ≤ words.length) :
    pyStrip (chunk_of_range words (s, e)) ≠ "" := by
  apply pyJoin_strip_ne_empty
  · intro hnil
    have hlen := congrArg List.length hnil
    simp only [List.length_take, List.length_drop, List.length_nil] at hlen
    omega
  · intro w hwmem
    exact hw w (List.mem_of_mem_drop (List.mem_of_mem_take hwmem))

/-- Structure of a terminating run of the chunker loop when `overlap <
chunk_size`: the loop visits strictly advancing windows `(start, start + W)`
with step `W - O`, the last window ends exactly at `words.length`, and fuel
`words.length - start` plus one iteration is always enough. -/
theorem split_loop_spec (words : List String)
    (hw : ∀ w ∈ words, w.data ≠ [] ∧ ∀ c ∈ w.data, pyIsSpace c = false)
    (W O : Nat) (hO : O < W) :
    ∀ fuel start acc, start < words.length → words.length ≤ start + fuel →
      ∃ rs, split_loop words W O fuel start acc = some (acc ++ rs) ∧
        rs.head? = some (start, min (start + W) words.length) ∧
        (∀ r ∈ rs, r.1 < r.2 ∧ r.2 = min (r.1 + W) words.length) ∧
        rs.getLast?.map Prod.snd = some words.length ∧
        rs.Chain' (fun r s => r.2 = r.1 + W ∧ s.1 = r.1 + (W - O)) := by
  intro fuel
  induction fuel with
  | zero => intro start acc h1 h2; omega
  | succ n ih =>
    intro start acc h1 h2
    rw [split_loop_succ, if_pos h1]
    have hstrip : ¬ pyStrip (chunk_of_range words (start, min (start + W) words.length)) = "" :=
      chunk_strip_ne_empty hw (by omega) (by omega)
    rw [if_neg hstrip]
    by_cases hle : words.length ≤ min (start + W) words.length
    · rw [if_pos hle]
      have he : min (start + W) words.length = words.length := by omega
      refine ⟨[(start, min (start + W) words.length)], rfl, rfl, ?_, ?_, ?_⟩
      · intro r hr
        rcases List.mem_singleton.mp hr with rfl
        exact ⟨by omega, rfl⟩
      · simp [he]
      · simp
    · rw [if_neg hle]
      have he : min (start + W) words.length = start + W := by omega
      have hstep : ¬ min (start + W) words.length - O = 0 := by omega
      rw [if_neg hstep]
      have h1b : min (start + W) words.length - O < words.length := by omega
      have h2b : words.length ≤ min (start + W) words.length - O + n := by omega
      obtain ⟨rs2, heq2, hhead2, hprops2, hlast2, hchain2⟩ :=
        ih (min (start + W) words.length - O) (acc ++ [(start, min (start + W) words.length)]) h1b h2b
      refine ⟨(start, min (start + W) words.length) :: rs2, ?_, rfl, ?_, ?_, ?_⟩
      · rw [heq2]
        simp
      · intro r hr
        rcases List.mem_cons.mp hr with rfl | hr
        · exact ⟨by omega, rfl⟩
        · exact hprops2 r hr
      · obtain ⟨b, t, rfl⟩ : ∃ b t, rs2 = b :: t := by
          cases rs2 with
          | nil => simp at hhead2
          | cons b t => exact ⟨b, t, rfl⟩
        simpa using hlast2
      · rw [List.chain'_cons']
        refine ⟨?_, hchain2⟩
        intro y hy
        rw [hhead2] at hy
        rcases Option.mem_some_iff.mp hy with rfl
        exact ⟨he, by omega⟩

/-- Windows whose starts chain below the previous end, whose first window
starts at `start` and whose last window ends at `N`, cover `[start, N)`. -/
theorem ranges_cover :
    ∀ (rs : List (Nat × Nat)) (start N : Nat),
      rs.head?.map Prod.fst = some start →
      rs.Chain' (fun r s => s.1 ≤ r.2) →
      rs.getLast?.map Prod.snd = some N →
      ∀ i, start ≤ i → i < N → ∃ r ∈ rs, r.1 ≤ i ∧ i < r.2 := by
  intro rs
  induction rs with
  | nil => intro start N h; simp at h
  | cons a tail ih =>
    intro start N hhead hchain hlast i hsi hiN
    have ha1 : a.1 = start := by simpa using hhead
    cases tail with
    | nil =>
      have ha2 : a.2 = N := by simpa using hlast
      exact ⟨a, List.mem_cons_self a [], by omega, by omega⟩
    | cons b t =>
      by_cases hia : i < a.2
      · exact ⟨a, List.mem_cons_self a (b :: t), by omega, hia⟩
      · have hba : b.1 ≤ a.2 := (List.chain'_cons.mp hchain).1
        obtain ⟨r, hr, hri⟩ :=
          ih b.1 N (by simp) (List.chain'_cons.mp hchain).2
            (by simpa using hlast) i (by omega) hiN
        exact ⟨r, List.mem_cons_of_mem a hr, hri⟩

/-- C2: for a document of N whitespace-delimited tokens, window size `W` and
overlap `O < W`, `split_text_with_overlap` terminates, its chunks are the
joined word slices of the recorded windows, the windows cover `[0, N)` with no
gap, every window is non-empty of at most `W` tokens, and each pair of
consecutive windows shares exactly `O` token indices. -/
theorem C2_chunk_coverage (text : String) (W O : Nat) (hO : O < W) :
    ∃ rs, split_ranges (pySplit text) W O = some rs ∧
      split_text_with_overlap text W O =
        some (rs.map (chunk_of_range (pySplit text))) ∧
      (∀ i, i < (pySplit text).length → ∃ r ∈ rs, r.1 ≤ i ∧ i < r.2) ∧
      (∀ r ∈ rs, r.1 < r.2 ∧ r.2 - r.1 ≤ W) ∧
      rs.Chain' (fun r s => ((Finset.Ico r.1 r.2) ∩ (Finset.Ico s.1 s.2)).card = O) := by
  by_cases hN : (pySplit text).length = 0
  · have hsr : split_ranges (pySplit text) W O = some [] := by
      show split_loop _ W O ((pySplit text).length + 1) 0 [] = some []
      rw [hN, split_loop_succ, if_neg (by omega)]
    refine ⟨[], hsr, ?_, ?_, ?_, ?_⟩
    · simp only [split_text_with_overlap]
      rw [hsr]
      rfl
    · intro i hi
      omega
    · intro r hr
      simp at hr
    · exact List.chain'_nil
  · obtain ⟨rs, heq, hhead, hprops, hlast, hchain⟩ :=
      split_loop_spec (pySplit text) (pySplit_good text) W O hO
        ((pySplit text).length + 1) 0 [] (by omega) (by omega)
    have hsr : split_ranges (pySplit text) W O = some rs := by
      show split_loop _ W O ((pySplit text).length + 1) 0 [] = some rs
      rw [heq]
      simp
    refine ⟨rs, hsr, ?_, ?_, ?_, ?_⟩
    · simp only [split_text_with_overlap]
      rw [hsr]
      rfl
    · intro i hi
      refine ranges_cover rs 0 (pySplit text).length ?_ ?_ hlast i (Nat.zero_le i) hi
      · rw [hhead]
        rfl
      · refine hchain.imp ?_
        intro r s hr
        omega
    · intro r hr
      obtain ⟨h1, h2⟩ := hprops r hr
      exact ⟨h1, by omega⟩
    · rw [List.chain'_iff_get] at hchain ⊢
      intro i hilen
      have hstep := hchain i hilen
      have hrmem := hprops _ (List.get_mem rs i (by omega))
      have hsmem := hprops _ (List.get_mem rs (i + 1) (by omega))
      rw [Finset.Ico_inter_Ico, Nat.card_Ico]
      obtain ⟨hr1, hr2⟩ := hrmem
      obtain ⟨hs1, hs2⟩ := hsmem
      obtain ⟨hc1, hc2⟩ := hstep
      omega

/-- Concrete instantiation of `C2_chunk_coverage` at text "a b c",
window size 2, overlap 1. -/
theorem C2_chunk_coverage_witness :
    ∃ rs, split_ranges (pySplit "a b c") 2 1 = some rs ∧
      split_text_with_overlap "a b c" 2 1 =
        some (rs.map (chunk_of_range (pySplit "a b c"))) ∧
      (∀ i, i < (pySplit "a b c").length → ∃ r ∈ rs, r.1 ≤ i ∧ i < r.2) ∧
      (∀ r ∈ rs, r.1 < r.2 ∧ r.2 - r.1 ≤ 2) ∧
      rs.Chain' (fun r s => ((Finset.Ico r.1 r.2) ∩ (Finset.Ico s.1 s.2)).card = 1) :=
  C2_chunk_coverage "a b c" 2 1 (by omega)

/-- On the eleven-token text "a b c d e f g h i j k" with `chunk_size = 5` and
`overlap = 5`, the source loop reaches `start = 5` after one iteration and
then recomputes `start = end - overlap = 10 - 5 = 5` forever. -/
theorem split_loop_stuck_at_five :
    ∀ fuel acc,
      split_loop (pySplit "a b c d e f g h i j k") 5 5 fuel 5 acc = none := by
  intro fuel
  induction fuel with
  | zero => intro acc; rfl
  | succ n ih =>
    intro acc
    have hstep : split_loop (pySplit "a b c d e f g h i j k") 5 5 (n + 1) 5 acc =
        split_loop (pySplit "a b c d e f g h i j k") 5 5 n 5 (acc ++ [(5, 10)]) := rfl
    rw [hstep]
    exact ih (acc ++ [(5, 10)])

/-- C1 (code divergence): the chunker loop of `split_text_with_overlap` does
NOT terminate for every `windowSize`/`overlap` setting.  On the eleven-token
text "a b c d e f g h i j k" with `chunk_size = 5` and `overlap = 5`
(`overlap >= windowSize`), no amount of fuel finishes the loop: the start
index reaches token 5 and is re-assigned 5 on every later iteration, so the
window `[5, 10)` is re-processed forever.  Consequently
`split_text_with_overlap` yields `none` (non-termination) on this input. -/
theorem C1_chunker_nonterminating :
    (∀ fuel acc,
      split_loop (pySplit "a b c d e f g h i j k") 5 5 fuel 0 acc = none) ∧
    split_text_with_overlap "a b c d e f g h i j k" 5 5 = none := by
  have hmain : ∀ fuel acc,
      split_loop (pySplit "a b c d e f g h i j k") 5 5 fuel 0 acc = none := by
    intro fuel
    cases fuel with
    | zero => intro acc; rfl
    | succ n =>
      intro acc
      have hstep : split_loop (pySplit "a b c d e f g h i j k") 5 5 (n + 1) 0 acc =
          split_loop (pySplit "a b c d e f g h i j k") 5 5 n 5 (acc ++ [(0, 5)]) := rfl
      rw [hstep]
      exact split_loop_stuck_at_five n (acc ++ [(0, 5)])
  refine ⟨hmain, ?_⟩
  have hr : split_ranges (pySplit "a b c d e f g h i j k") 5 5 = none := hmain _ _
  simp only [split_text_with_overlap]
  rw [hr]
  rfl

/-- C9 as written is false on the code: the example document has 8
whitespace-delimited tokens, not 9, and chunking it with `windowSize = 5`,
`overlap = 1` yields exactly 2 chunks, not 3. -/
theorem C9_counterexample :
    (split_text_with_overlap
        "Python is a high-level language. Python supports OOP." 5 1).map
      List.length = some 2 ∧
    (split_text_with_overlap
        "Python is a high-level language. Python supports OOP." 5 1).map
      List.length ≠ some 3 ∧
    (pySplit "Python is a high-level language. Python supports OOP.").length = 8 := by
  have h : (split_text_with_overlap
      "Python is a high-level language. Python supports OOP." 5 1).map
      List.length = some 2 := rfl
  exact ⟨h, by rw [h]; decide, rfl⟩

/-- C9 (amended): chunking "Python is a high-level language. Python supports
OOP." with `windowSize = 5`, `overlap = 1` yields exactly 2 chunks, each of at
most 5 words, the consecutive pair sharing exactly 1 word, together covering
all 8 whitespace-delimited words of the document. -/
theorem C9_example_chunking :
    split_text_with_overlap
        "Python is a high-level language. Python supports OOP." 5 1 =
      some ["Python is a high-level language.",
            "language. Python supports OOP."] ∧
    split_ranges
        (pySplit "Python is a high-level language. Python supports OOP.") 5 1 =
      some [(0, 5), (4, 8)] ∧
    (pySplit "Python is a high-level language. Python supports OOP.").length = 8 ∧
    (∀ r ∈ [((0 : Nat), (5 : Nat)), (4, 8)], r.2 - r.1 ≤ 5) ∧
    ((Finset.Ico 0 5) ∩ (Finset.Ico 4 8)).card = 1 ∧
    (∀ i < 8, ∃ r ∈ [((0 : Nat), (5 : Nat)), (4, 8)], r.1 ≤ i ∧ i < r.2) := by
  refine ⟨rfl, rfl, rfl, by decide, by decide, by decide⟩

/-! ## Ingestion with deduplication: `ingest_documents`
(services/knowledge_base_service.py)

The endpoint iterates over the uploaded files; per file it md5-hashes the
decoded text, chunks it with `split_text_with_overlap(text_content)` (default
window 500 / overlap 50), skips the whole file when an already-stored entry
carries the same `content_hash`, and otherwise appends one index entry per
chunk.  The md5 hash and the embedding model are external capabilities,
modelled as function parameters; `uuid`/timestamp parts of an entry are
external randomness and are not part of the model.  The fold state mirrors
`(document_store, documents_added, duplicates_skipped, files_processed)`. -/

/-- An entry of the simple-storage index (`document_store` item). -/
structure DocEntry where
  text : String
  filename : String
  chunk_id : Nat
  content_hash : String
  chunk_length : Nat
deriving DecidableEq

/-- An entry of the ChromaDB collection in embeddings mode. -/
structure EmbDocEntry (V : Type) where
  embedding : V
  document : String
  filename : String
  chunk_id : Nat
  content_hash : String
  chunk_length : Nat

/-- The chunk list used by ingestion: `split_text_with_overlap(text_content)`
with its defaults (500, 50); with overlap 50 < window 500 the loop always
terminates within `len(words) + 1` iterations, so the `getD` default is never
reached. -/
def ingest_chunks (text : String) : List String :=
  (split_text_with_overlap text).getD []

/-- One iteration of the `for file in files` loop, simple-storage branch.
`file = (filename, decoded text)`. -/
def ingest_file_simple (md5 : String → String)
    (st : List DocEntry × Nat × Nat × List String) (file : String × String) :
    List DocEntry × Nat × Nat × List String :=
  let content_hash := md5 file.2
  let chunks := ingest_chunks file.2
  if (st.1.map (fun d => d.content_hash)).contains content_hash then
    (st.1, st.2.1, st.2.2.1 + 1, st.2.2.2)
  else
    (st.1 ++ chunks.enum.map (fun ic =>
        { text := ic.2, filename := file.1, chunk_id := ic.1,
          content_hash := content_hash, chunk_length := pyLen ic.2 }),
      st.2.1 + chunks.length, st.2.2.1, st.2.2.2 ++ [file.1])

/-- `ingest_documents`, simple-storage branch: returns the new
`document_store` together with `(documents_added, duplicates_skipped,
files_processed)`. -/
def ingest_documents_simple (md5 : String → String)
    (document_store : List DocEntry) (files : List (String × String)) :
    List DocEntry × Nat × Nat × List String :=
  files.foldl (ingest_file_simple md5) (document_store, 0, 0, [])

/-- One iteration of the `for file in files` loop, embeddings branch.  The
duplicate test models `collection.get(where={"content_hash": h})` returning a
non-empty id list. -/
def ingest_file_embeddings {V : Type} (md5 : String → String)
    (embed : String → V)
    (st : List (EmbDocEntry V) × Nat × Nat × List String)
    (file : String × String) :
    List (EmbDocEntry V) × Nat × Nat × List String :=
  let content_hash := md5 file.2
  let chunks := ingest_chunks file.2
  if st.1.any (fun d => d.content_hash == content_hash) then
    (st.1, st.2.1, st.2.2.1 + 1, st.2.2.2)
  else
    (st.1 ++ chunks.enum.map (fun ic =>
        { embedding := embed ic.2, document := ic.2, filename := file.1,
          chunk_id := ic.1, content_hash := content_hash,
          chunk_length := pyLen ic.2 }),
      st.2.1 + chunks.length, st.2.2.1, st.2.2.2 ++ [file.1])

/-- `ingest_documents`, embeddings branch. -/
def ingest_documents_embeddings {V : Type} (md5 : String → String)
    (embed : String → V) (collection : List (EmbDocEntry V))
    (files : List (String × String)) :
    List (EmbDocEntry V) × Nat × Nat × List String :=
  files.foldl (ingest_file_embeddings md5 embed) (collection, 0, 0, [])

/-! ## Deduplication properties of ingestion -/

theorem ingest_chunks_ne_empty {text : String} (h : pySplit text ≠ []) :
    ingest_chunks text ≠ [] := by
  have hN : 0 < (pySplit text).length := List.length_pos.mpr h
  obtain ⟨rs, heq, hhead, -, -, -⟩ :=
    split_loop_spec (pySplit text) (pySplit_good text) 500 50 (by omega)
      ((pySplit text).length + 1) 0 [] hN (by omega)
  have hsr : split_ranges (pySplit text) 500 50 = some rs := by
    show split_loop _ 500 50 ((pySplit text).length + 1) 0 [] = some rs
    rw [heq]
    simp
  obtain ⟨b, t, rfl⟩ : ∃ b t, rs = b :: t := by
    cases rs with
    | nil => simp at hhead
    | cons b t => exact ⟨b, t, rfl⟩
  simp only [ingest_chunks, split_text_with_overlap]
  rw [hsr]
  simp

/-- The only side effect of a single-file ingestion step on the store is an
append, and the appended entries all carry the hash of that file; nothing is
appended if the hash is already stored. -/
theorem ingest_file_simple_cases (md5 : String → String)
    (st : List DocEntry × Nat × Nat × List String) (file : String × String) :
    ((∃ e ∈ st.1, e.content_hash = md5 file.2) ∧
      ingest_file_simple md5 st file = (st.1, st.2.1, st.2.2.1 + 1, st.2.2.2)) ∨
    ((∀ e ∈ st.1, e.content_hash ≠ md5 file.2) ∧
      ∃ new, (ingest_file_simple md5 st file).1 = st.1 ++ new ∧
        new.length = (ingest_chunks file.2).length ∧
        ∀ e ∈ new, e.content_hash = md5 file.2) := by
  by_cases hmem : ∃ e ∈ st.1, e.content_hash = md5 file.2
  · left
    refine ⟨hmem, ?_⟩
    have hc : (st.1.map (fun d => d.content_hash)).contains (md5 file.2) = true := by
      rw [List.contains_iff_exists_mem_beq]
      obtain ⟨e, he, hh⟩ := hmem
      exact ⟨e.content_hash, List.mem_map_of_mem _ he, by simp [hh]⟩
    simp only [ingest_file_simple]
    rw [if_pos hc]
  · right
    push_neg at hmem
    refine ⟨hmem, ?_⟩
    have hc : ¬ (st.1.map (fun d => d.content_hash)).contains (md5 file.2) = true := by
      rw [List.contains_iff_exists_mem_beq]
      rintro ⟨h, hmem2, hbeq⟩
      obtain ⟨e, he, rfl⟩ := List.mem_map.mp hmem2
      simp only [beq_iff_eq] at hbeq
      exact hmem e he hbeq.symm
    simp only [ingest_file_simple]
    rw [if_neg hc]
    refine ⟨_, rfl, by simp, ?_⟩
    intro e he
    obtain ⟨ic, -, rfl⟩ := List.mem_map.mp he
    rfl

/-- Same case analysis for the embeddings branch. -/
theorem ingest_file_embeddings_cases {V : Type} (md5 : String → String)
    (embed : String → V)
    (st : List (EmbDocEntry V) × Nat × Nat × List String)
    (file : String × String) :
    ((∃ e ∈ st.1, e.content_hash = md5 file.2) ∧
      ingest_file_embeddings md5 embed st file =
        (st.1, st.2.1, st.2.2.1 + 1, st.2.2.2)) ∨
    ((∀ e ∈ st.1, e.content_hash ≠ md5 file.2) ∧
      ∃ new, (ingest_file_embeddings md5 embed st file).1 = st.1 ++ new ∧
        new.length = (ingest_chunks file.2).length ∧
        ∀ e ∈ new, e.content_hash = md5 file.2) := by
  by_cases hmem : ∃ e ∈ st.1, e.content_hash = md5 file.2
  · left
    refine ⟨hmem, ?_⟩
    have hc : st.1.any (fun d => d.content_hash == md5 file.2) = true := by
      rw [List.any_eq_true]
      obtain ⟨e, he, hh⟩ := hmem
      exact ⟨e, he, by simp [hh]⟩
    simp only [ingest_file_embeddings]
    rw [if_pos hc]
  · right
    push_neg at hmem
    refine ⟨hmem, ?_⟩
    have hc : ¬ st.1.any (fun d => d.content_hash == md5 file.2) = true := by
      rw [List.any_eq_true]
      rintro ⟨e, he, hbeq⟩
      simp only [beq_iff_eq] at hbeq
      exact hmem e he hbeq
    simp only [ingest_file_embeddings]
    rw [if_neg hc]
    refine ⟨_, rfl, by simp, ?_⟩
    intro e he
    obtain ⟨ic, -, rfl⟩ := List.mem_map.mp he
    rfl

/-- Any run of the simple-storage ingestion loop only appends entries, and no
appended entry shares a content hash with an entry present before the call. -/
theorem ingest_fold_simple_extends (md5 : String → String) :
    ∀ (files : List (String × String))
      (st : List DocEntry × Nat × Nat × List String),
      ∃ new, (List.foldl (ingest_file_simple md5) st files).1 = st.1 ++ new ∧
        ∀ e ∈ new, ∀ e0 ∈ st.1, e0.content_hash ≠ e.content_hash := by
  intro files
  induction files with
  | nil => intro st; exact ⟨[], by simp, by simp⟩
  | cons f fs ih =>
    intro st
    rw [List.foldl_cons]
    obtain ⟨new2, h1, h2⟩ := ih (ingest_file_simple md5 st f)
    rcases ingest_file_simple_cases md5 st f with
      ⟨hmem, heq⟩ | ⟨hnot, new1, hst, -, hnew1⟩
    · refine ⟨new2, ?_, ?_⟩
      · rw [h1, heq]
      · intro e he e0 he0
        refine h2 e he e0 ?_
        rw [heq]
        exact he0
    · refine ⟨new1 ++ new2, ?_, ?_⟩
      · rw [h1, hst, List.append_assoc]
      · intro e he e0 he0
        rcases List.mem_append.mp he with he | he
        · have := hnew1 e he
          have := hnot e0 he0
          intro hcontra
          simp_all
        · exact h2 e he e0 (by rw [hst]; exact List.mem_append_left _ he0)

/-- Same append-only property for the embeddings branch. -/
theorem ingest_fold_embeddings_extends {V : Type} (md5 : String → String)
    (embed : String → V) :
    ∀ (files : List (String × String))
      (st : List (EmbDocEntry V) × Nat × Nat × List String),
      ∃ new,
        (List.foldl (ingest_file_embeddings md5 embed) st files).1 = st.1 ++ new ∧
        ∀ e ∈ new, ∀ e0 ∈ st.1, e0.content_hash ≠ e.content_hash := by
  intro files
  induction files with
  | nil => intro st; exact ⟨[], by simp, by simp⟩
  | cons f fs ih =>
    intro st
    rw [List.foldl_cons]
    obtain ⟨new2, h1, h2⟩ := ih (ingest_file_embeddings md5 embed st f)
    rcases ingest_file_embeddings_cases md5 embed st f with
      ⟨hmem, heq⟩ | ⟨hnot, new1, hst, -, hnew1⟩
    · refine ⟨new2, ?_, ?_⟩
      · rw [h1, heq]
      · intro e he e0 he0
        refine h2 e he e0 ?_
        rw [heq]
        exact he0
    · refine ⟨new1 ++ new2, ?_, ?_⟩
      · rw [h1, hst, List.append_assoc]
      · intro e he e0 he0
        rcases List.mem_append.mp he with he | he
        · have := hnew1 e he
          have := hnot e0 he0
          intro hcontra
          simp_all
        · exact h2 e he e0 (by rw [hst]; exact List.mem_append_left _ he0)

/-- After ingesting a non-whitespace document, its md5 hash is present in the
simple store. -/
theorem ingest_simple_hash_present (md5 : String → String)
    (store : List DocEntry) (f1 text : String) (htext : pySplit text ≠ []) :
    ∃ e ∈ (ingest_documents_simple md5 store [(f1, text)]).1,
      e.content_hash = md5 text := by
  have hone : ingest_documents_simple md5 store [(f1, text)] =
      ingest_file_simple md5 (store, 0, 0, []) (f1, text) := rfl
  rw [hone]
  rcases ingest_file_simple_cases md5 (store, 0, 0, []) (f1, text) with
    ⟨⟨e, he, hh⟩, heq⟩ | ⟨-, new1, hst, hlen, hnew1⟩
  · rw [heq]
    exact ⟨e, he, hh⟩
  · obtain ⟨e, he⟩ : ∃ e, e ∈ new1 := by
      have hne : new1 ≠ [] := by
        intro hnil
        rw [hnil] at hlen
        have := ingest_chunks_ne_empty htext
        simp only [List.length_nil] at hlen
        exact this (List.eq_nil_of_length_eq_zero hlen.symm)
      cases new1 with
      | nil => exact absurd rfl hne
      | cons a t => exact ⟨a, List.mem_cons_self a t⟩
    refine ⟨e, ?_, hnew1 e he⟩
    rw [hst]
    exact List.mem_append_right _ he

/-- Same for the embeddings collection. -/
theorem ingest_embeddings_hash_present {V : Type} (md5 : String → String)
    (embed : String → V) (coll : List (EmbDocEntry V)) (f1 text : String)
    (htext : pySplit text ≠ []) :
    ∃ e ∈ (ingest_documents_embeddings md5 embed coll [(f1, text)]).1,
      e.content_hash = md5 text := by
  have hone : ingest_documents_embeddings md5 embed coll [(f1, text)] =
      ingest_file_embeddings md5 embed (coll, 0, 0, []) (f1, text) := rfl
  rw [hone]
  rcases ingest_file_embeddings_cases md5 embed (coll, 0, 0, []) (f1, text) with
    ⟨⟨e, he, hh⟩, heq⟩ | ⟨-, new1, hst, hlen, hnew1⟩
  · rw [heq]
    exact ⟨e, he, hh⟩
  · obtain ⟨e, he⟩ : ∃ e, e ∈ new1 := by
      have hne : new1 ≠ [] := by
        intro hnil
        rw [hnil] at hlen
        have := ingest_chunks_ne_empty htext
        simp only [List.length_nil] at hlen
        exact this (List.eq_nil_of_length_eq_zero hlen.symm)
      cases new1 with
      | nil => exact absurd rfl hne
      | cons a t => exact ⟨a, List.mem_cons_self a t⟩
    refine ⟨e, ?_, hnew1 e he⟩
    rw [hst]
    exact List.mem_append_right _ he

/-- C3: re-ingesting a document with an already-stored content fingerprint —
even under another filename — adds zero entries and reports
`documents_added = 0`, `duplicates_skipped = 1`; and across any ingestion
call, in both index variants, no newly created entry ever shares a content
fingerprint with an entry that existed before the call. -/
theorem C3_dedup_idempotent :
    (∀ (md5 : String → String) (store : List DocEntry) (f1 f2 text : String),
      pySplit text ≠ [] →
      ingest_documents_simple md5
          (ingest_documents_simple md5 store [(f1, text)]).1 [(f2, text)] =
        ((ingest_documents_simple md5 store [(f1, text)]).1, 0, 1, [])) ∧
    (∀ (md5 : String → String) (store : List DocEntry)
      (files : List (String × String)),
      ∃ new, (ingest_documents_simple md5 store files).1 = store ++ new ∧
        ∀ e ∈ new, ∀ e0 ∈ store, e0.content_hash ≠ e.content_hash) ∧
    (∀ (V : Type) (md5 : String → String) (embed : String → V)
      (coll : List (EmbDocEntry V)) (f1 f2 text : String),
      pySplit text ≠ [] →
      ingest_documents_embeddings md5 embed
          (ingest_documents_embeddings md5 embed coll [(f1, text)]).1
          [(f2, text)] =
        ((ingest_documents_embeddings md5 embed coll [(f1, text)]).1, 0, 1, [])) ∧
    (∀ (V : Type) (md5 : String → String) (embed : String → V)
      (coll : List (EmbDocEntry V)) (files : List (String × String)),
      ∃ new, (ingest_documents_embeddings md5 embed coll files).1 = coll ++ new ∧
        ∀ e ∈ new, ∀ e0 ∈ coll, e0.content_hash ≠ e.content_hash) := by
  refine ⟨?_, ?_, ?_, ?_⟩
  · intro md5 store f1 f2 text htext
    rcases ingest_file_simple_cases md5
        ((ingest_documents_simple md5 store [(f1, text)]).1, 0, 0, [])
        (f2, text) with
      ⟨-, heq⟩ | ⟨hnot, -⟩
    · exact heq
    · obtain ⟨e, he, hh⟩ := ingest_simple_hash_present md5 store f1 text htext
      exact absurd hh (hnot e he)
  · intro md5 store files
    exact ingest_fold_simple_extends md5 files (store, 0, 0, [])
  · intro V md5 embed coll f1 f2 text htext
    rcases ingest_file_embeddings_cases md5 embed
        ((ingest_documents_embeddings md5 embed coll [(f1, text)]).1, 0, 0, [])
        (f2, text) with
      ⟨-, heq⟩ | ⟨hnot, -⟩
    · exact heq
    · obtain ⟨e, he, hh⟩ :=
        ingest_embeddings_hash_present md5 embed coll f1 text htext
      exact absurd hh (hnot e he)
  · intro V md5 embed coll files
    exact ingest_fold_embeddings_extends md5 embed files (coll, 0, 0, [])

/-- Concrete instantiation of `C3_dedup_idempotent`: identity as the hash
capability, a two-call re-ingestion of "hello world" in both variants. -/
theorem C3_dedup_idempotent_witness :
    pySplit "hello world" ≠ [] ∧
    ingest_documents_simple (fun s => s)
        (ingest_documents_simple (fun s => s) [] [("a.txt", "hello world")]).1
        [("b.txt", "hello world")] =
      ((ingest_documents_simple (fun s => s) [] [("a.txt", "hello world")]).1,
        0, 1, []) ∧
    ingest_documents_embeddings (fun s => s) (fun _ => ())
        (ingest_documents_embeddings (fun s => s) (fun _ => ())
          ([] : List (EmbDocEntry Unit)) [("a.txt", "hello world")]).1
        [("b.txt", "hello world")] =
      ((ingest_documents_embeddings (fun s => s) (fun _ => ())
          ([] : List (EmbDocEntry Unit)) [("a.txt", "hello world")]).1,
        0, 1, []) :=
  ⟨by decide,
    C3_dedup_idempotent.1 (fun s => s) [] "a.txt" "b.txt" "hello world"
      (by decide),
    C3_dedup_idempotent.2.2.1 Unit (fun s => s) (fun _ => ()) [] "a.txt" "b.txt"
      "hello world" (by decide)⟩

/-! ## `clean_text` (identical copies in services/knowledge_base_service.py
and services/search_service.py)

```python
def clean_text(text):
    if not text: return ""
    text = re.sub(r'\s+', ' ', text).strip()
    if len(text) > 500: text = text[:497] + "..."
    return text
```

`re.sub(r'\s+', ' ', text).strip()` equals `' '.join(text.split())`: every
maximal whitespace run becomes a single space and the ends are stripped, so
the result is exactly the whitespace-split tokens joined by single spaces. -/

/-- `clean_text` of services/knowledge_base_service.py. -/
def clean_text (text : String) : String :=
  if text = "" then ""
  else
    let t := pyJoin " " (pySplit text)
    if pyLen t > 500 then pyConcat (pyTake t 497) "..." else t

/-- `clean_text` of services/search_service.py (verbatim copy of the
knowledge-base one). -/
def search_clean_text (text : String) : String :=
  if text = "" then ""
  else
    let t := pyJoin " " (pySplit text)
    if pyLen t > 500 then pyConcat (pyTake t 497) "..." else t

/-! ## Answer enhancer: `enhance_answer_with_gemini`
(services/knowledge_base_service.py)

The Gemini HTTP call is an external capability; its outcome is a model
parameter.  `http status body` carries the HTTP status and, for a
structurally valid 200 response, the extracted
`candidates[0].content.parts[0].text`; `body = none` models a 200 response
whose candidate structure is missing.  `timeout`, `connectionError` and
`exception` model `requests.exceptions.Timeout`,
`requests.exceptions.ConnectionError` and any other raised exception. -/

inductive GeminiOutcome where
  | timeout
  | connectionError
  | exception
  | http (status : Nat) (body : Option String)

/-- `enhance_answer_with_gemini(query, document_content)`: `none` models the
Python `None` ("no enhancement"); the prompt construction is external and does
not affect the returned value. -/
def enhance_answer_with_gemini (api_key : Option String)
    (outcome : GeminiOutcome) (_query document_content : String) :
    Option String :=
  match api_key with
  | none => none
  | some _ =>
    match outcome with
    | .timeout => none
    | .connectionError => none
    | .exception => none
    | .http status body =>
      if status = 200 then
        match body with
        | some answer =>
          let cleaned_answer := clean_text answer
          if cleaned_answer ≠ "" ∧ pyLen (pyStrip cleaned_answer) > 15 ∧
              pyStartswith (pyLower cleaned_answer)
                "the provided document doesn\x27t contain" = false ∧
              pyStartswith (pyLower cleaned_answer) "i don\x27t have" = false ∧
              pyStartswith (pyLower cleaned_answer) "i cannot" = false ∧
              pyStartswith (pyLower cleaned_answer) "i\x27m sorry" = false ∧
              pyStartswith (pyLower cleaned_answer) "based on the document" = false ∧
              pyLower cleaned_answer ≠ pyTake (pyLower document_content) 100 then
            some cleaned_answer
          else none
        | none => none
      else none

/-- `enhance_with_gemini(query, search_result)` of services/search_service.py:
no validation rules beyond the HTTP plumbing, the raw candidate text is
returned through `clean_text`.  The key sentinel check models
`GEMINI_API_KEY == "your-gemini-api-key"`. -/
def enhance_with_gemini (api_key : Option String) (outcome : GeminiOutcome)
    (_query _search_result : String) : Option String :=
  match api_key with
  | none => none
  | some k =>
    if k = "your-gemini-api-key" then none
    else
      match outcome with
      | .timeout => none
      | .connectionError => none
      | .exception => none
      | .http status body =>
        if status = 200 then
          match body with
          | some answer => some (search_clean_text answer)
          | none => none
        else none

/-! ## Query engine: `query_knowledge_base`
(services/knowledge_base_service.py)

The response record mirrors `QueryResponse`.  Confidence values are exact
rationals; the float formatting inside `source_documents` strings is dropped,
an entry is modelled by its filename. -/

structure QueryResponse where
  answer : String
  relevant : Bool
  confidence : ℚ
  source_documents : List String
  processing_method : String
deriving DecidableEq

/-- One step of the result-scanning loop of the embeddings branch over
`zip(documents, distances, metadatas)`; state is
`(best_match, best_confidence, source_docs)`.  `confidence = 1.0 - distance`;
a hit above 0.4 is appended to `source_docs` and replaces the best match when
strictly better. -/
def scan_step (st : Option String × ℚ × List String)
    (x : String × ℚ × String) : Option String × ℚ × List String :=
  let confidence := 1 - x.2.1
  if confidence > 2/5 then
    if confidence > st.2.1 then (some x.1, confidence, st.2.2 ++ [x.2.2])
    else (st.1, st.2.1, st.2.2 ++ [x.2.2])
  else st

/-- The whole scanning loop, starting from
`best_match = None, best_confidence = 0.0, source_docs = []`. -/
def scan_results (zipped : List (String × ℚ × String)) :
    Option String × ℚ × List String :=
  zipped.foldl scan_step (none, 0, [])

/-- The `context_docs` selection: among the first `min(3, len(documents))`
results, those with `1.0 - distance > 0.15` (the lists returned by ChromaDB
are parallel, so indexing `distances[i]` is modelled by zipping). -/
def context_docs (documents : List String) (distances : List ℚ) :
    List String :=
  ((documents.zip distances).take 3).filterMap
    (fun dd => if 1 - dd.2 > 3/20 then some dd.1 else none)

/-- The `is_useful` validation of the embeddings branch applied to the final
answer. -/
def embeddings_useful (a : String) : Bool :=
  a ≠ "" ∧ pyLen (pyStrip a) > 10 ∧
    pyStartswith (pyLower a) "no relevant information" = false ∧
    pyStartswith (pyLower a) "this document does not contain" = false ∧
    pyStartswith (pyLower a) "i don\x27t have information" = false

/-- The enhancement attempt of the embeddings branch: combine the sufficiently
confident top-3 chunks when the best confidence is below 0.5 and several
results exist, otherwise enhance the single best match.  `enhance text ctx`
stands for `await enhance_answer_with_gemini(text, ctx)`. -/
def embeddings_context_enhanced (enhance : String → String → Option String)
    (documents : List String) (distances : List ℚ) (text : String)
    (bm : String) (bc : ℚ) : Option String :=
  if bc < 1/2 ∧ documents.length > 1 then
    if context_docs documents distances ≠ [] then
      enhance text (pyJoin "\n\n" (context_docs documents distances))
    else enhance text bm
  else enhance text bm

/-- The embeddings branch of `query_knowledge_base`, given the scanned best
match. -/
def embeddings_decide (enhance : String → String → Option String)
    (documents : List String) (distances : List ℚ) (text : String)
    (best_match : Option String) (best_confidence : ℚ)
    (source_docs : List String) : QueryResponse :=
  match best_match with
  | some bm =>
    if best_confidence > 1/5 then
      if embeddings_useful
          ((embeddings_context_enhanced enhance documents distances text bm
            best_confidence).getD bm) then
        ⟨(embeddings_context_enhanced enhance documents distances text bm
            best_confidence).getD bm,
          true, best_confidence, source_docs.take 3, "embeddings"⟩
      else
        ⟨"No sufficiently relevant information found in knowledge base.",
          false, 0, [], "embeddings"⟩
    else
      ⟨"No sufficiently relevant information found in knowledge base.",
        false, 0, [], "embeddings"⟩
  | none =>
    ⟨"No sufficiently relevant information found in knowledge base.",
      false, 0, [], "embeddings"⟩

/-- `query_knowledge_base`, embeddings branch (`USE_EMBEDDINGS` true).
`documents`, `distances` and `filenames` are the parallel lists returned by
`collection.query(...)` for the embedded query text. -/
def query_embeddings (enhance : String → String → Option String)
    (documents : List String) (distances : List ℚ) (filenames : List String)
    (text : String) : QueryResponse :=
  if documents = [] then
    ⟨"No relevant information found in knowledge base.", false, 0, [],
      "embeddings"⟩
  else
    embeddings_decide enhance documents distances text
      (scan_results (documents.zip (distances.zip filenames))).1
      (scan_results (documents.zip (distances.zip filenames))).2.1
      (scan_results (documents.zip (distances.zip filenames))).2.2

/-! ## `query_knowledge_base`, text-search branch (`USE_EMBEDDINGS` false) -/

/-- Keyword-overlap score: `len(query_words & doc_words) / len(query_words)`
(0 when the query has no tokens).  Counting over the deduplicated query token
list equals the Python set-intersection cardinality. -/
def overlap_score (query_words doc_words : List String) : ℚ :=
  if query_words ≠ [] then
    ((query_words.filter (fun w => doc_words.contains w)).length : ℚ) /
      (query_words.length : ℚ)
  else 0

/-- Substring score: fraction of query tokens occurring anywhere in the chunk
text. -/
def substring_score (query_words : List String) (doc_text : String) : ℚ :=
  if query_words ≠ [] then
    ((query_words.filter (fun w => pyContains doc_text w)).length : ℚ) /
      (query_words.length : ℚ)
  else 0

/-- Phrase bonus: 1.0 when the full lower-cased query occurs verbatim. -/
def phrase_score (query_lower doc_text : String) : ℚ :=
  if pyContains doc_text query_lower then 1 else 0

/-- Filename score: fraction of query tokens occurring in the filename. -/
def filename_score (query_words : List String) (filename : String) : ℚ :=
  if query_words ≠ [] then
    ((query_words.filter (fun w => pyContains filename w)).length : ℚ) /
      (query_words.length : ℚ)
  else 0

/-- Specific-keyword score: among query tokens longer than 3 characters, the
fraction occurring in the chunk text (0 when there is no such token). -/
def specific_score (query_words : List String) (doc_text : String) : ℚ :=
  if query_words.filter (fun w => pyLen w > 3) ≠ [] then
    ((query_words.filter
        (fun w => pyLen w > 3 ∧ pyContains doc_text w)).length : ℚ) /
      ((query_words.filter (fun w => pyLen w > 3)).length : ℚ)
  else 0

/-- The per-chunk `combined_score` of the text-matching loop.
`query_lower = text.lower()`, `query_words = set(query_lower.split())`
(modelled as the deduplicated token list — counting over it equals counting
over the Python set). -/
def combined_score (query_lower : String) (query_words : List String)
    (doc : DocEntry) : ℚ :=
  overlap_score query_words (pySplit (pyLower doc.text)) * (3/10) +
    substring_score query_words (pyLower doc.text) * (3/10) +
    phrase_score query_lower (pyLower doc.text) * (1/5) +
    filename_score query_words (pyLower doc.filename) * (1/10) +
    specific_score query_words (pyLower doc.text) * (1/10)

/-- Python `set(query_lower.split())` as a deduplicated token list. -/
def query_word_set (text : String) : List String :=
  (pySplit (pyLower text)).dedup

/-- The chunks kept by the text-matching loop: those with
`combined_score > 0.3`, paired with their score. -/
def lexical_matches (document_store : List DocEntry) (text : String) :
    List (DocEntry × ℚ) :=
  document_store.filterMap (fun doc =>
    if combined_score (pyLower text) (query_word_set text) doc > 3/10 then
      some (doc, combined_score (pyLower text) (query_word_set text) doc)
    else none)

/-- `matches.sort(key=..., reverse=True)`: stable descending sort by score. -/
def lexical_sorted (document_store : List DocEntry) (text : String) :
    List (DocEntry × ℚ) :=
  (lexical_matches document_store text).mergeSort (fun a b => decide (b.2 ≤ a.2))

/-- The (more lenient) `is_useful` validation of the text-search branch. -/
def lexical_useful (a : String) : Bool :=
  a ≠ "" ∧ pyLen (pyStrip a) > 10 ∧
    pyStartswith (pyLower a) "no relevant information" = false ∧
    pyStartswith (pyLower a) "this document does not contain" = false

/-- The enhancement attempt of the text-search branch: combine the top-3
match texts when the best score is below 0.4 and several matches exist. -/
def lexical_enhanced (enhance : String → String → Option String)
    (sorted : List (DocEntry × ℚ)) (best : DocEntry × ℚ) (text : String) :
    Option String :=
  if best.2 < 2/5 ∧ sorted.length > 1 then
    enhance text (pyJoin "\n\n" ((sorted.take 3).map (fun m => m.1.text)))
  else enhance text best.1.text

/-- `query_knowledge_base`, text-search branch. -/
def query_text_search (enhance : String → String → Option String)
    (document_store : List DocEntry) (text : String) : QueryResponse :=
  match lexical_sorted document_store text with
  | [] =>
    ⟨"No relevant information found in knowledge base.", false, 0, [],
      "text_search"⟩
  | best :: _ =>
    if lexical_useful
        ((lexical_enhanced enhance (lexical_sorted document_store text) best
          text).getD best.1.text) then
      ⟨(lexical_enhanced enhance (lexical_sorted document_store text) best
          text).getD best.1.text,
        true, best.2,
        ((lexical_sorted document_store text).take 3).map
          (fun m => m.1.filename),
        "text_search"⟩
    else
      ⟨"No relevant information found in knowledge base.", false, 0, [],
        "text_search"⟩

/-! ## Fallback router: `chat` (services/chat_service.py)

The knowledge-base HTTP call and the search HTTP call are external
collaborators: `kb` is the parsed JSON of a successful `/query` call (`none`
models a failed call), `search` the parsed JSON of `/search`.  The router
consults the knowledge base first on every request — it holds no state across
requests — and the boolean returned alongside the response records whether
the search tier (and with it the direct-generative capability living inside
the search service) was invoked at all. -/

/-- Parsed knowledge-base `/query` response as used by the router. -/
structure KBServiceResponse where
  answer : String
  relevant : Bool
  confidence : ℚ
  source_documents : List String
deriving DecidableEq

/-- Parsed search-service `/search` response. -/
structure SearchServiceResponse where
  answer : String
  source : String
deriving DecidableEq

/-- The router's reply. -/
structure ChatResponse where
  chat_id : String
  response : String
  source : String
  confidence : ℚ
  source_documents : List String
deriving DecidableEq

/-- The `kb_has_answer` validation of services/chat_service.py. -/
def kb_has_answer (kb : Option KBServiceResponse) : Bool :=
  match kb with
  | none => false
  | some r =>
    r.relevant ∧ r.confidence > 3/20 ∧ r.answer ≠ "" ∧
      pyStartswith (pyLower r.answer) "no relevant information" = false ∧
      pyStartswith (pyLower r.answer) "no sufficiently relevant" = false ∧
      pyStartswith (pyLower r.answer) "this document does not contain" = false ∧
      pyLen (pyStrip r.answer) > 15

/-- The search-tier continuation of `chat`: invoked whenever the knowledge
base did not produce an accepted answer (the returned boolean `true` records
that the search tier ran). -/
def chat_search_fallback (chat_id : String)
    (search : Option SearchServiceResponse) : ChatResponse × Bool :=
  match search with
  | some s =>
    if s.answer ≠ "" then
      (⟨chat_id, s.answer, pyConcat "search_" s.source, 1/2,
        [pyConcat "Web search via " s.source]⟩, true)
    else
      (⟨chat_id,
        "I\x27m sorry, I couldn\x27t find relevant information in the knowledge base or through web search.",
        "fallback", 0, []⟩, true)
  | none =>
    (⟨chat_id,
      "I\x27m sorry, I couldn\x27t find relevant information in the knowledge base or through web search.",
      "fallback", 0, []⟩, true)

/-- The `chat` endpoint: first component the `ChatResponse`, second component
whether the search tier was invoked for this request. -/
def chat (chat_id _message : String) (kb : Option KBServiceResponse)
    (search : Option SearchServiceResponse) : ChatResponse × Bool :=
  match kb with
  | some r =>
    if kb_has_answer (some r) then
      (⟨chat_id, r.answer, "knowledge_base", r.confidence,
        r.source_documents⟩, false)
    else chat_search_fallback chat_id search
  | none => chat_search_fallback chat_id search

/-! ## Properties of the query engine -/

/-- The scanning loop either leaves the seed state's best fields untouched,
or ends with a best confidence above 0.4 that equals `1 - distance` for one of
the scanned results. -/
theorem scan_foldl_cases :
    ∀ (zipped : List (String × ℚ × String))
      (st : Option String × ℚ × List String),
      ((zipped.foldl scan_step st).1 = st.1 ∧
        (zipped.foldl scan_step st).2.1 = st.2.1) ∨
      ((zipped.foldl scan_step st).2.1 > 2/5 ∧
        ∃ x ∈ zipped, (zipped.foldl scan_step st).2.1 = 1 - x.2.1) := by
  intro zipped
  induction zipped with
  | nil => intro st; left; exact ⟨rfl, rfl⟩
  | cons x xs ih =>
    intro st
    rw [List.foldl_cons]
    by_cases hc : 1 - x.2.1 > 2/5
    · by_cases hb : 1 - x.2.1 > st.2.1
      · have hs : (scan_step st x).1 = some x.1 ∧ (scan_step st x).2.1 = 1 - x.2.1 := by
          simp only [scan_step]
          rw [if_pos hc, if_pos hb]
          exact ⟨rfl, rfl⟩
        rcases ih (scan_step st x) with ⟨h1, h2⟩ | ⟨h1, y, hy, h2⟩
        · right
          rw [h2, hs.2]
          exact ⟨hc, x, List.mem_cons_self x xs, rfl⟩
        · right
          exact ⟨h1, y, List.mem_cons_of_mem x hy, h2⟩
      · have hs : (scan_step st x).1 = st.1 ∧ (scan_step st x).2.1 = st.2.1 := by
          simp only [scan_step]
          rw [if_pos hc, if_neg hb]
          exact ⟨rfl, rfl⟩
        rcases ih (scan_step st x) with ⟨h1, h2⟩ | ⟨h1, y, hy, h2⟩
        · left
          rw [h1, h2, hs.1, hs.2]
          exact ⟨rfl, rfl⟩
        · right
          exact ⟨h1, y, List.mem_cons_of_mem x hy, h2⟩
    · have hs : scan_step st x = st := by
        simp only [scan_step]
        rw [if_neg hc]
      rcases ih (scan_step st x) with ⟨h1, h2⟩ | ⟨h1, y, hy, h2⟩
      · left
        rw [h1, h2, hs]
        exact ⟨rfl, rfl⟩
      · right
        exact ⟨h1, y, List.mem_cons_of_mem x hy, h2⟩

/-- The best confidence of a scan is either 0 (with no best match) or
`1 - distance` above 0.4 for one scanned result. -/
theorem scan_results_cases (zipped : List (String × ℚ × String)) :
    ((scan_results zipped).1 = none ∧ (scan_results zipped).2.1 = 0) ∨
    ((scan_results zipped).2.1 > 2/5 ∧
      ∃ x ∈ zipped, (scan_results zipped).2.1 = 1 - x.2.1) :=
  scan_foldl_cases zipped (none, 0, [])

/-- Case analysis of the embeddings decision: a relevant response echoes the
best confidence, anything else is the fixed "not sufficiently relevant"
response with confidence 0. -/
theorem embeddings_decide_cases (enhance : String → String → Option String)
    (documents : List String) (distances : List ℚ) (text : String)
    (bm : Option String) (bc : ℚ) (sd : List String) :
    ((embeddings_decide enhance documents distances text bm bc sd).relevant = true ∧
      (embeddings_decide enhance documents distances text bm bc sd).confidence = bc ∧
      bc > 1/5 ∧ bm ≠ none ∧
      (embeddings_decide enhance documents distances text bm bc sd).answer =
        (embeddings_context_enhanced enhance documents distances text
          (bm.getD "") bc).getD (bm.getD "")) ∨
    (embeddings_decide enhance documents distances text bm bc sd =
      ⟨"No sufficiently relevant information found in knowledge base.",
        false, 0, [], "embeddings"⟩) := by
  match bm with
  | none => right; rfl
  | some b =>
    by_cases hgate : bc > 1/5
    · by_cases huse : embeddings_useful
          ((embeddings_context_enhanced enhance documents distances text b
            bc).getD b) = true
      · left
        have heq : embeddings_decide enhance documents distances text (some b) bc sd =
            ⟨(embeddings_context_enhanced enhance documents distances text b
                bc).getD b,
              true, bc, sd.take 3, "embeddings"⟩ := by
          simp only [embeddings_decide]
          rw [if_pos hgate, if_pos huse]
        rw [heq]
        exact ⟨rfl, rfl, hgate, by simp, rfl⟩
      · right
        simp only [embeddings_decide]
        rw [if_pos hgate, if_neg huse]
    · right
      simp only [embeddings_decide]
      rw [if_neg hgate]

/-- A guarded count fraction lies in `[0, 1]`. -/
theorem div_if_bounds {num den : Nat} (guard : Prop) [Decidable guard]
    (h : guard → num ≤ den ∧ 0 < den) :
    0 ≤ (if guard then (num : ℚ) / (den : ℚ) else 0) ∧
      (if guard then (num : ℚ) / (den : ℚ) else 0) ≤ 1 := by
  by_cases hg : guard
  · simp only [if_pos hg]
    obtain ⟨h1, h2⟩ := h hg
    have hd : 0 < (den : ℚ) := by exact_mod_cast h2
    refine ⟨by positivity, ?_⟩
    rw [div_le_one hd]
    exact_mod_cast h1
  · simp only [if_neg hg]
    norm_num

theorem overlap_score_bounds (qw dw : List String) :
    0 ≤ overlap_score qw dw ∧ overlap_score qw dw ≤ 1 :=
  div_if_bounds _
    (fun hg => ⟨List.length_filter_le _ _, List.length_pos.mpr hg⟩)

theorem substring_score_bounds (qw : List String) (dt : String) :
    0 ≤ substring_score qw dt ∧ substring_score qw dt ≤ 1 :=
  div_if_bounds _
    (fun hg => ⟨List.length_filter_le _ _, List.length_pos.mpr hg⟩)

theorem phrase_score_bounds (ql dt : String) :
    0 ≤ phrase_score ql dt ∧ phrase_score ql dt ≤ 1 := by
  unfold phrase_score
  by_cases h : pyContains dt ql = true
  · rw [if_pos h]; norm_num
  · rw [if_neg h]; norm_num

theorem filename_score_bounds (qw : List String) (fn : String) :
    0 ≤ filename_score qw fn ∧ filename_score qw fn ≤ 1 :=
  div_if_bounds _
    (fun hg => ⟨List.length_filter_le _ _, List.length_pos.mpr hg⟩)

theorem specific_score_bounds (qw : List String) (dt : String) :
    0 ≤ specific_score qw dt ∧ specific_score qw dt ≤ 1 :=
  div_if_bounds _
    (fun hg =>
      ⟨(List.monotone_filter_right qw
          (fun a ha => by
            simp only [decide_eq_true_eq] at ha ⊢
            exact ha.1)).length_le,
        List.length_pos.mpr hg⟩)

/-- The weighted sum of the five component scores lies in `[0, 1]`: the
weights are 0.3 + 0.3 + 0.2 + 0.1 + 0.1 = 1. -/
theorem combined_score_bounds (ql : String) (qw : List String)
    (doc : DocEntry) :
    0 ≤ combined_score ql qw doc ∧ combined_score ql qw doc ≤ 1 := by
  obtain ⟨h1a, h1b⟩ := overlap_score_bounds qw (pySplit (pyLower doc.text))
  obtain ⟨h2a, h2b⟩ := substring_score_bounds qw (pyLower doc.text)
  obtain ⟨h3a, h3b⟩ := phrase_score_bounds ql (pyLower doc.text)
  obtain ⟨h4a, h4b⟩ := filename_score_bounds qw (pyLower doc.filename)
  obtain ⟨h5a, h5b⟩ := specific_score_bounds qw (pyLower doc.text)
  unfold combined_score
  constructor <;> nlinarith

/-- Reduction of `query_text_search` when the sorted match list is empty. -/
theorem query_text_search_nil (enhance : String → String → Option String)
    (document_store : List DocEntry) (text : String)
    (hs : lexical_sorted document_store text = []) :
    query_text_search enhance document_store text =
      ⟨"No relevant information found in knowledge base.", false, 0, [],
        "text_search"⟩ := by
  unfold query_text_search
  rw [hs]

/-- Reduction of `query_text_search` on a non-empty sorted match list. -/
theorem query_text_search_cons (enhance : String → String → Option String)
    (document_store : List DocEntry) (text : String) (best : DocEntry × ℚ)
    (rest : List (DocEntry × ℚ))
    (hs : lexical_sorted document_store text = best :: rest) :
    query_text_search enhance document_store text =
      if lexical_useful
          ((lexical_enhanced enhance (best :: rest) best text).getD
            best.1.text) = true then
        ⟨(lexical_enhanced enhance (best :: rest) best text).getD best.1.text,
          true, best.2, ((best :: rest).take 3).map (fun m => m.1.filename),
          "text_search"⟩
      else
        ⟨"No relevant information found in knowledge base.", false, 0, [],
          "text_search"⟩ := by
  unfold query_text_search
  rw [hs]

/-- Case analysis of the text-search branch: a relevant response carries the
top sorted score as confidence, everything else is the fixed "no relevant
information" response with confidence 0. -/
theorem query_text_search_cases (enhance : String → String → Option String)
    (document_store : List DocEntry) (text : String) :
    (∃ best rest, lexical_sorted document_store text = best :: rest ∧
      (query_text_search enhance document_store text).relevant = true ∧
      (query_text_search enhance document_store text).confidence = best.2) ∨
    ((query_text_search enhance document_store text).relevant = false ∧
      (query_text_search enhance document_store text).confidence = 0) := by
  by_cases hnil : lexical_sorted document_store text = []
  · right
    rw [query_text_search_nil enhance document_store text hnil]
    exact ⟨rfl, rfl⟩
  · obtain ⟨best, rest, hs⟩ : ∃ b r,
        lexical_sorted document_store text = b :: r := by
      cases h : lexical_sorted document_store text with
      | nil => exact absurd h hnil
      | cons b r => exact ⟨b, r, rfl⟩
    rw [query_text_search_cons enhance document_store text best rest hs]
    by_cases huse : lexical_useful
        ((lexical_enhanced enhance (best :: rest) best text).getD
          best.1.text) = true
    · left
      refine ⟨best, rest, hs, ?_, ?_⟩ <;> rw [if_pos huse]
    · right
      rw [if_neg huse]
      exact ⟨rfl, rfl⟩

/-- Every kept match carries the combined score of its chunk, above 0.3. -/
theorem lexical_matches_mem {document_store : List DocEntry} {text : String}
    {m : DocEntry × ℚ} (hm : m ∈ lexical_matches document_store text) :
    m.1 ∈ document_store ∧
    m.2 = combined_score (pyLower text) (query_word_set text) m.1 ∧
    m.2 > 3/10 := by
  obtain ⟨doc, hdoc, hf⟩ := List.mem_filterMap.mp hm
  by_cases hc : combined_score (pyLower text) (query_word_set text) doc > 3/10
  · rw [if_pos hc] at hf
    obtain rfl := Option.some_injective _ hf
    exact ⟨hdoc, rfl, hc⟩
  · rw [if_neg hc] at hf
    exact absurd hf (by simp)

/-- C4: at the query boundary every returned confidence lies in `[0, 1]`, for
both index variants.  For the embeddings variant this relies on the
capability's distances being non-negative (cosine or L2, as the spec states);
the lexical variant is unconditional since the weights 0.3/0.3/0.2/0.1/0.1 sum
to 1 and every component score is a guarded count fraction. -/
theorem C4_confidence_bounds :
    (∀ (enhance : String → String → Option String) (documents : List String)
      (distances : List ℚ) (filenames : List String) (text : String),
      (∀ d ∈ distances, 0 ≤ d) →
      0 ≤ (query_embeddings enhance documents distances filenames
            text).confidence ∧
        (query_embeddings enhance documents distances filenames
          text).confidence ≤ 1) ∧
    (∀ (enhance : String → String → Option String)
      (document_store : List DocEntry) (text : String),
      0 ≤ (query_text_search enhance document_store text).confidence ∧
        (query_text_search enhance document_store text).confidence ≤ 1) := by
  constructor
  · intro enhance documents distances filenames text hd
    unfold query_embeddings
    by_cases hdoc : documents = []
    · rw [if_pos hdoc]
      norm_num
    · rw [if_neg hdoc]
      rcases embeddings_decide_cases enhance documents distances text
          (scan_results (documents.zip (distances.zip filenames))).1
          (scan_results (documents.zip (distances.zip filenames))).2.1
          (scan_results (documents.zip (distances.zip filenames))).2.2 with
        ⟨-, hconf, -, -, -⟩ | heq
      · rw [hconf]
        rcases scan_results_cases (documents.zip (distances.zip filenames)) with
          ⟨-, h0⟩ | ⟨hgt, x, hx, hval⟩
        · rw [h0]
          norm_num
        · obtain ⟨a, d, f⟩ := x
          have hdm : d ∈ distances := by
            have h1 := List.of_mem_zip hx
            exact (List.of_mem_zip h1.2).1
          have hdpos := hd d hdm
          constructor
          · linarith
          · rw [hval]
            simp only []
            linarith
      · rw [heq]
        norm_num
  · intro enhance document_store text
    rcases query_text_search_cases enhance document_store text with
      ⟨best, rest, hs, -, hconf⟩ | ⟨-, hconf⟩
    · rw [hconf]
      have hb : best ∈ lexical_sorted document_store text := by
        rw [hs]
        exact List.mem_cons_self best rest
      have hbm : best ∈ lexical_matches document_store text :=
        ((lexical_matches document_store text).mergeSort_perm
          (fun a b => decide (b.2 ≤ a.2))).subset hb
      obtain ⟨-, hsc, -⟩ := lexical_matches_mem hbm
      rw [hsc]
      exact combined_score_bounds (pyLower text) (query_word_set text) best.1
    · rw [hconf]
      norm_num

/-- Concrete instantiation of `C4_confidence_bounds`: one stored chunk in each
variant. -/
theorem C4_confidence_bounds_witness :
    (0 ≤ (query_embeddings (fun _ _ => none) ["alpha beta gamma delta text"]
          [1/10] ["f.txt"] "alpha").confidence ∧
      (query_embeddings (fun _ _ => none) ["alpha beta gamma delta text"]
        [1/10] ["f.txt"] "alpha").confidence ≤ 1) ∧
    (0 ≤ (query_text_search (fun _ _ => none)
          [⟨"alpha beta gamma delta text", "f.txt", 0, "h", 27⟩]
          "alpha").confidence ∧
      (query_text_search (fun _ _ => none)
        [⟨"alpha beta gamma delta text", "f.txt", 0, "h", 27⟩]
        "alpha").confidence ≤ 1) :=
  ⟨C4_confidence_bounds.1 (fun _ _ => none) ["alpha beta gamma delta text"]
      [1/10] ["f.txt"] "alpha" (by norm_num),
    C4_confidence_bounds.2 (fun _ _ => none)
      [⟨"alpha beta gamma delta text", "f.txt", 0, "h", 27⟩] "alpha"⟩

/-- The "multiple lower-confidence chunks combined as context" condition of
the embeddings branch: best confidence below 0.5, several results, and at
least one of the first three results above the 0.15 context threshold. -/
def multi_chunk_combined (documents : List String) (distances : List ℚ)
    (bc : ℚ) : Prop :=
  bc < 1/2 ∧ documents.length > 1 ∧ context_docs documents distances ≠ []

/-- C6: in the embeddings path a result is accepted (`relevant = true`) only
if the scanned top confidence exceeds the admission threshold 0.2, the
returned confidence is that top confidence, and acceptance implies the best
confidence exceeds the strict bar 0.4 or the multi-chunk context combination
applies (the code in fact guarantees the first disjunct: a best match is only
recorded above 0.4). -/
theorem C6_relevance_gate :
    ∀ (enhance : String → String → Option String) (documents : List String)
      (distances : List ℚ) (filenames : List String) (text : String),
      (query_embeddings enhance documents distances filenames
        text).relevant = true →
      (scan_results (documents.zip (distances.zip filenames))).2.1 > 1/5 ∧
      (query_embeddings enhance documents distances filenames
        text).confidence =
        (scan_results (documents.zip (distances.zip filenames))).2.1 ∧
      ((query_embeddings enhance documents distances filenames
          text).confidence > 2/5 ∨
        multi_chunk_combined documents distances
          (scan_results (documents.zip (distances.zip filenames))).2.1) := by
  intro enhance documents distances filenames text hrel
  by_cases hdoc : documents = []
  · exfalso
    unfold query_embeddings at hrel
    rw [if_pos hdoc] at hrel
    simp at hrel
  · have hq : query_embeddings enhance documents distances filenames text =
        embeddings_decide enhance documents distances text
          (scan_results (documents.zip (distances.zip filenames))).1
          (scan_results (documents.zip (distances.zip filenames))).2.1
          (scan_results (documents.zip (distances.zip filenames))).2.2 := by
      unfold query_embeddings
      rw [if_neg hdoc]
    rw [hq] at hrel ⊢
    rcases embeddings_decide_cases enhance documents distances text
        (scan_results (documents.zip (distances.zip filenames))).1
        (scan_results (documents.zip (distances.zip filenames))).2.1
        (scan_results (documents.zip (distances.zip filenames))).2.2 with
      ⟨-, hconf, hgate, -, -⟩ | heq
    · refine ⟨hgate, hconf, ?_⟩
      left
      rw [hconf]
      rcases scan_results_cases (documents.zip (distances.zip filenames)) with
        ⟨-, h0⟩ | ⟨hgt, -⟩
      · rw [h0] at hgate
        norm_num at hgate
      · exact hgt
    · rw [heq] at hrel
      simp at hrel

/-- Concrete instantiation of `C6_relevance_gate`: one stored chunk at
distance 0.1, no enhancement. -/
theorem C6_relevance_gate_witness :
    (query_embeddings (fun _ _ => none) ["some long document text here"]
      [1/10] ["f.txt"] "q").relevant = true ∧
    ((scan_results (["some long document text here"].zip
        ([1/10].zip ["f.txt"]))).2.1 > 1/5 ∧
      (query_embeddings (fun _ _ => none) ["some long document text here"]
        [1/10] ["f.txt"] "q").confidence =
        (scan_results (["some long document text here"].zip
          ([1/10].zip ["f.txt"]))).2.1 ∧
      ((query_embeddings (fun _ _ => none) ["some long document text here"]
          [1/10] ["f.txt"] "q").confidence > 2/5 ∨
        multi_chunk_combined ["some long document text here"] [1/10]
          (scan_results (["some long document text here"].zip
            ([1/10].zip ["f.txt"]))).2.1)) :=
  ⟨by with_unfolding_all rfl,
    C6_relevance_gate (fun _ _ => none) ["some long document text here"]
      [1/10] ["f.txt"] "q" (by with_unfolding_all rfl)⟩

/-- C7: whenever the knowledge-base response passes the router's acceptance
check (relevant, confidence above 0.15, non-empty non-boilerplate answer
longer than 15 characters), `chat` returns that answer with source
"knowledge_base" and does not invoke the search tier — hence neither the web
search nor the direct-generative capability that lives behind it — and this
holds for every value of the search collaborator, so no prior search outcome
can influence it; the knowledge base is consulted first on every request. -/
theorem C7_tier_ordering (chat_id message : String) (r : KBServiceResponse)
    (search : Option SearchServiceResponse)
    (h1 : r.relevant = true) (h2 : r.confidence > 3/20) (h3 : r.answer ≠ "")
    (h4 : pyStartswith (pyLower r.answer) "no relevant information" = false)
    (h5 : pyStartswith (pyLower r.answer) "no sufficiently relevant" = false)
    (h6 : pyStartswith (pyLower r.answer)
      "this document does not contain" = false)
    (h7 : pyLen (pyStrip r.answer) > 15) :
    chat chat_id message (some r) search =
      (⟨chat_id, r.answer, "knowledge_base", r.confidence,
        r.source_documents⟩, false) := by
  have hk : kb_has_answer (some r) = true := by
    simp only [kb_has_answer, decide_eq_true_eq]
    exact ⟨by simp [h1], h2, h3, h4, h5, h6, h7⟩
  simp [chat, hk]

/-- Concrete instantiation of `C7_tier_ordering`, with a populated search
response that is nevertheless never consulted. -/
theorem C7_tier_ordering_witness :
    chat "c1" "what is python"
        (some ⟨"Python is a high-level programming language", true, 1/2,
          ["doc.txt"]⟩)
        (some ⟨"confident web answer", "ddgs"⟩) =
      (⟨"c1", "Python is a high-level programming language",
        "knowledge_base", 1/2, ["doc.txt"]⟩, false) :=
  C7_tier_ordering "c1" "what is python"
    ⟨"Python is a high-level programming language", true, 1/2, ["doc.txt"]⟩
    (some ⟨"confident web answer", "ddgs"⟩)
    rfl (by norm_num) (by decide) (by decide) (by decide) (by decide)
    (by decide)

/-- When the Gemini capability yields nothing for this query, the enhancement
attempt of the embeddings branch yields `None` whatever the context choice. -/
theorem embeddings_context_enhanced_none
    {enhance : String → String → Option String} {text : String}
    (henh : ∀ ctx, enhance text ctx = none) (documents : List String)
    (distances : List ℚ) (bm : String) (bc : ℚ) :
    embeddings_context_enhanced enhance documents distances text bm bc =
      none := by
  unfold embeddings_context_enhanced
  by_cases h1 : bc < 1/2 ∧ documents.length > 1
  · rw [if_pos h1]
    by_cases h2 : context_docs documents distances ≠ []
    · rw [if_pos h2]
      exact henh _
    · rw [if_neg h2]
      exact henh _
  · rw [if_neg h1]
    exact henh _

/-- C8 (amended): the enhancer returns an answer exactly for a structurally
valid HTTP 200 outcome whose cleaned text passes every validation rule — so
failures, timeouts, rate limits, short or boilerplate or echoed outputs all
yield no enhancement; and when enhancement yields nothing while retrieval
passed the relevance gate and the raw best chunk itself passes the usefulness
validation, the query returns that raw chunk text, relevant and tagged with
the knowledge-base processing method, not an error. -/
theorem C8_graceful_degradation :
    (∀ (k : Option String) (o : GeminiOutcome) (q c a : String),
      enhance_answer_with_gemini k o q c = some a ↔
        (∃ key t, k = some key ∧ o = GeminiOutcome.http 200 (some t) ∧
          a = clean_text t ∧ clean_text t ≠ "" ∧
          pyLen (pyStrip (clean_text t)) > 15 ∧
          pyStartswith (pyLower (clean_text t))
            "the provided document doesn\x27t contain" = false ∧
          pyStartswith (pyLower (clean_text t)) "i don\x27t have" = false ∧
          pyStartswith (pyLower (clean_text t)) "i cannot" = false ∧
          pyStartswith (pyLower (clean_text t)) "i\x27m sorry" = false ∧
          pyStartswith (pyLower (clean_text t))
            "based on the document" = false ∧
          pyLower (clean_text t) ≠ pyTake (pyLower c) 100)) ∧
    (∀ (enhance : String → String → Option String) (documents : List String)
      (distances : List ℚ) (filenames : List String) (text bm : String),
      (∀ ctx, enhance text ctx = none) →
      (scan_results (documents.zip (distances.zip filenames))).1 = some bm →
      (scan_results (documents.zip (distances.zip filenames))).2.1 > 1/5 →
      embeddings_useful bm = true →
      query_embeddings enhance documents distances filenames text =
        ⟨bm, true,
          (scan_results (documents.zip (distances.zip filenames))).2.1,
          (scan_results (documents.zip (distances.zip filenames))).2.2.take 3,
          "embeddings"⟩) := by
  constructor
  · intro k o q c a
    constructor
    · intro h
      match k with
      | none => exact absurd h (by simp [enhance_answer_with_gemini])
      | some key =>
        match o with
        | .timeout => exact absurd h (by simp [enhance_answer_with_gemini])
        | .connectionError =>
          exact absurd h (by simp [enhance_answer_with_gemini])
        | .exception => exact absurd h (by simp [enhance_answer_with_gemini])
        | .http status body =>
          simp only [enhance_answer_with_gemini] at h
          by_cases hstat : status = 200
          · rw [if_pos hstat] at h
            match body with
            | none => exact absurd h (by simp)
            | some t =>
              simp only [] at h
              by_cases hval : clean_text t ≠ "" ∧
                  pyLen (pyStrip (clean_text t)) > 15 ∧
                  pyStartswith (pyLower (clean_text t))
                    "the provided document doesn\x27t contain" = false ∧
                  pyStartswith (pyLower (clean_text t))
                    "i don\x27t have" = false ∧
                  pyStartswith (pyLower (clean_text t)) "i cannot" = false ∧
                  pyStartswith (pyLower (clean_text t))
                    "i\x27m sorry" = false ∧
                  pyStartswith (pyLower (clean_text t))
                    "based on the document" = false ∧
                  pyLower (clean_text t) ≠ pyTake (pyLower c) 100
              · rw [if_pos hval] at h
                obtain rfl := Option.some_injective _ h
                exact ⟨key, t, rfl, by rw [hstat], rfl, hval⟩
              · rw [if_neg hval] at h
                exact absurd h (by simp)
          · rw [if_neg hstat] at h
            exact absurd h (by simp)
    · rintro ⟨key, t, rfl, rfl, rfl, hval⟩
      simp only [enhance_answer_with_gemini]
      rw [if_pos trivial, if_pos hval]
  · intro enhance documents distances filenames text bm henh hsome hgate huse
    have hdoc : documents ≠ [] := by
      intro hnil
      rw [hnil] at hsome
      exact absurd hsome (by simp [scan_results])
    unfold query_embeddings
    rw [if_neg hdoc]
    rw [hsome]
    simp only [embeddings_decide]
    rw [if_pos hgate]
    rw [embeddings_context_enhanced_none henh]
    simp only [Option.getD_none]
    rw [if_pos huse]

/-- C8 as written is false on the code: with one stored chunk "short" at
distance 0.1 the relevance gate passes (best match recorded, confidence
0.9 > 0.2), the enhancement times out and yields nothing, yet the query does
not return the raw chunk — the raw text fails the 10-character usefulness
check, so the response is the fixed not-relevant boilerplate with
confidence 0. -/
theorem C8_counterexample :
    (∀ q ctx, enhance_answer_with_gemini (some "key") GeminiOutcome.timeout
      q ctx = none) ∧
    (scan_results (["short"].zip ([1/10].zip ["f.txt"]))).1 = some "short" ∧
    (scan_results (["short"].zip ([1/10].zip ["f.txt"]))).2.1 > 1/5 ∧
    (query_embeddings
      (fun q ctx => enhance_answer_with_gemini (some "key")
        GeminiOutcome.timeout q ctx)
      ["short"] [1/10] ["f.txt"] "q").relevant = false ∧
    (query_embeddings
      (fun q ctx => enhance_answer_with_gemini (some "key")
        GeminiOutcome.timeout q ctx)
      ["short"] [1/10] ["f.txt"] "q").answer =
      "No sufficiently relevant information found in knowledge base." :=
  ⟨fun q ctx => rfl, by with_unfolding_all rfl,
    of_decide_eq_true (by with_unfolding_all rfl),
    by with_unfolding_all rfl, by with_unfolding_all rfl⟩

/-- Concrete instantiation of `C8_graceful_degradation`: a long raw chunk, a
timed-out enhancement, the raw chunk is returned relevant. -/
theorem C8_graceful_degradation_witness :
    (∀ ctx, enhance_answer_with_gemini (some "key") GeminiOutcome.timeout
      "q" ctx = none) ∧
    query_embeddings
        (fun q ctx => enhance_answer_with_gemini (some "key")
          GeminiOutcome.timeout q ctx)
        ["some long document text here"] [1/10] ["f.txt"] "q" =
      ⟨"some long document text here", true,
        (scan_results (["some long document text here"].zip
          ([1/10].zip ["f.txt"]))).2.1,
        (scan_results (["some long document text here"].zip
          ([1/10].zip ["f.txt"]))).2.2.take 3,
        "embeddings"⟩ :=
  ⟨fun ctx => rfl,
    C8_graceful_degradation.2
      (fun q ctx => enhance_answer_with_gemini (some "key")
        GeminiOutcome.timeout q ctx)
      ["some long document text here"] [1/10] ["f.txt"] "q"
      "some long document text here"
      (fun ctx => rfl) (by with_unfolding_all rfl)
      (of_decide_eq_true (by with_unfolding_all rfl)) (by decide)⟩

/-! ## The lexical scoring formula against its specification -/

/-- The weighted composite score exactly as the specification words it:
`score = 0.3·overlap + 0.3·substring + 0.2·phrase + 0.1·filename +
0.1·specific` over the query token set (a `Finset`), with zero-denominator
guards. -/
def spec_lexical_score (query : String) (doc : DocEntry) : ℚ :=
  let q := (pySplit (pyLower query)).toFinset
  let doc_text := pyLower doc.text
  let chunk_tokens := (pySplit doc_text).toFinset
  let fname := pyLower doc.filename
  let overlap : ℚ :=
    if q = ∅ then 0
    else ((q.filter (fun w => w ∈ chunk_tokens)).card : ℚ) / (q.card : ℚ)
  let substring : ℚ :=
    if q = ∅ then 0
    else ((q.filter (fun w => pyContains doc_text w = true)).card : ℚ) /
      (q.card : ℚ)
  let phrase : ℚ := if pyContains doc_text (pyLower query) = true then 1 else 0
  let fscore : ℚ :=
    if q = ∅ then 0
    else ((q.filter (fun w => pyContains fname w = true)).card : ℚ) /
      (q.card : ℚ)
  let longq := q.filter (fun w => 3 < pyLen w)
  let specific : ℚ :=
    if longq = ∅ then 0
    else ((longq.filter (fun w => pyContains doc_text w = true)).card : ℚ) /
      (longq.card : ℚ)
  3/10 * overlap + 3/10 * substring + 1/5 * phrase + 1/10 * fscore +
    1/10 * specific

/-- A guarded count fraction over a duplicate-free token list equals the
corresponding fraction over its `Finset`. -/
theorem count_fraction_eq_of_nodup (l : List String) (hl : l.Nodup)
    (p : String → Bool) :
    (if l ≠ [] then ((l.filter p).length : ℚ) / ((l.length : ℚ)) else 0) =
      if l.toFinset = ∅ then 0
      else ((l.toFinset.filter (fun w => p w = true)).card : ℚ) /
        ((l.toFinset.card : ℚ)) := by
  by_cases h : l = []
  · subst h
    simp
  · rw [if_pos h, if_neg (by simp [List.toFinset_eq_empty_iff, h])]
    have h1 : l.toFinset.filter (fun w => p w = true) = (l.filter p).toFinset := by
      ext a
      simp
    rw [h1, List.toFinset_card_of_nodup (hl.filter p),
      List.toFinset_card_of_nodup hl]

/-- The code's `combined_score` equals the specification's weighted formula:
same weights, same component definitions over the query token set, same
guards. -/
theorem combined_score_eq_spec (text : String) (doc : DocEntry) :
    combined_score (pyLower text) (query_word_set text) doc =
      spec_lexical_score text doc := by
  have hdedupF : (pySplit (pyLower text)).dedup.toFinset =
      (pySplit (pyLower text)).toFinset := by
    ext a
    simp [List.mem_dedup]
  have hnd := (pySplit (pyLower text)).nodup_dedup
  have h1 : overlap_score (query_word_set text) (pySplit (pyLower doc.text)) =
      (if (pySplit (pyLower text)).toFinset = ∅ then 0
       else (((pySplit (pyLower text)).toFinset.filter
          (fun w => w ∈ (pySplit (pyLower doc.text)).toFinset)).card : ℚ) /
         (((pySplit (pyLower text)).toFinset.card : ℚ))) := by
    unfold overlap_score query_word_set
    rw [count_fraction_eq_of_nodup _ hnd, hdedupF]
    by_cases hq : (pySplit (pyLower text)).toFinset = ∅
    · rw [if_pos hq, if_pos hq]
    · rw [if_neg hq, if_neg hq]
      have hpred : (pySplit (pyLower text)).toFinset.filter
          (fun w => (pySplit (pyLower doc.text)).contains w = true) =
          (pySplit (pyLower text)).toFinset.filter
            (fun w => w ∈ (pySplit (pyLower doc.text)).toFinset) := by
        apply Finset.filter_congr
        intro w hw
        simp [List.contains, List.elem_iff]
      rw [hpred]
  have h2 : substring_score (query_word_set text) (pyLower doc.text) =
      (if (pySplit (pyLower text)).toFinset = ∅ then 0
       else (((pySplit (pyLower text)).toFinset.filter
          (fun w => pyContains (pyLower doc.text) w = true)).card : ℚ) /
         (((pySplit (pyLower text)).toFinset.card : ℚ))) := by
    unfold substring_score query_word_set
    rw [count_fraction_eq_of_nodup _ hnd, hdedupF]
  have h4 : filename_score (query_word_set text) (pyLower doc.filename) =
      (if (pySplit (pyLower text)).toFinset = ∅ then 0
       else (((pySplit (pyLower text)).toFinset.filter
          (fun w => pyContains (pyLower doc.filename) w = true)).card : ℚ) /
         (((pySplit (pyLower text)).toFinset.card : ℚ))) := by
    unfold filename_score query_word_set
    rw [count_fraction_eq_of_nodup _ hnd, hdedupF]
  have h5 : specific_score (query_word_set text) (pyLower doc.text) =
      (if ((pySplit (pyLower text)).toFinset.filter
          (fun w => 3 < pyLen w)) = ∅ then 0
       else ((((pySplit (pyLower text)).toFinset.filter
            (fun w => 3 < pyLen w)).filter
          (fun w => pyContains (pyLower doc.text) w = true)).card : ℚ) /
         ((((pySplit (pyLower text)).toFinset.filter
            (fun w => 3 < pyLen w)).card : ℚ))) := by
    unfold specific_score
    have hnum : (query_word_set text).filter
        (fun w => pyLen w > 3 ∧ pyContains (pyLower doc.text) w) =
        ((query_word_set text).filter (fun w => pyLen w > 3)).filter
          (fun w => pyContains (pyLower doc.text) w) := by
      rw [List.filter_filter]
      apply List.filter_congr
      intro w hw
      simp [Bool.and_comm]
    rw [hnum]
    have hndq : (query_word_set text).Nodup := hnd
    rw [count_fraction_eq_of_nodup _ (hndq.filter _)]
    have hset : ((query_word_set text).filter
        (fun w => pyLen w > 3)).toFinset =
        (pySplit (pyLower text)).toFinset.filter (fun w => 3 < pyLen w) := by
      ext a
      simp [query_word_set, List.mem_dedup]
    rw [hset]
  unfold combined_score
  rw [h1, h2, h4, h5]
  unfold spec_lexical_score
  have h3 : phrase_score (pyLower text) (pyLower doc.text) =
      (if pyContains (pyLower doc.text) (pyLower text) = true
        then (1 : ℚ) else 0) := rfl
  rw [h3]
  ring

/-- C5: the text-search branch scores every stored chunk by exactly the
specified weighted formula (0.3·overlap + 0.3·substring + 0.2·phrase +
0.1·filename + 0.1·specific, with guarded denominators), keeps exactly the
chunks scoring strictly above 0.3, and returns them sorted descending by
score. -/
theorem C5_lexical_scoring :
    (∀ (text : String) (doc : DocEntry),
      combined_score (pyLower text) (query_word_set text) doc =
        spec_lexical_score text doc) ∧
    (∀ (document_store : List DocEntry) (text : String) (m : DocEntry × ℚ),
      m ∈ lexical_sorted document_store text →
      m.1 ∈ document_store ∧
      m.2 = combined_score (pyLower text) (query_word_set text) m.1 ∧
      m.2 > 3/10) ∧
    (∀ (document_store : List DocEntry) (text : String) (doc : DocEntry),
      doc ∈ document_store →
      combined_score (pyLower text) (query_word_set text) doc > 3/10 →
      (doc, combined_score (pyLower text) (query_word_set text) doc) ∈
        lexical_sorted document_store text) ∧
    (∀ (document_store : List DocEntry) (text : String),
      (lexical_sorted document_store text).Pairwise
        (fun a b => b.2 ≤ a.2)) := by
  refine ⟨combined_score_eq_spec, ?_, ?_, ?_⟩
  · intro document_store text m hm
    exact lexical_matches_mem
      (((lexical_matches document_store text).mergeSort_perm
        (fun a b => decide (b.2 ≤ a.2))).subset hm)
  · intro document_store text doc hdoc hsc
    have hmem : (doc, combined_score (pyLower text) (query_word_set text) doc) ∈
        lexical_matches document_store text := by
      apply List.mem_filterMap.mpr
      exact ⟨doc, hdoc, by rw [if_pos hsc]⟩
    exact (((lexical_matches document_store text).mergeSort_perm
      (fun a b => decide (b.2 ≤ a.2))).mem_iff).mpr hmem
  · intro document_store text
    have hp := @List.sorted_mergeSort (DocEntry × ℚ)
      (fun a b => decide (b.2 ≤ a.2))
      (fun a b c hab hbc => by
        simp only [decide_eq_true_eq] at hab hbc ⊢
        exact le_trans hbc hab)
      (fun a b => by
        simp only [Bool.or_eq_true, decide_eq_true_eq]
        exact le_total b.2 a.2)
      (lexical_matches document_store text)
    exact hp.imp (fun h => of_decide_eq_true h)

/-- Concrete instantiation of `C5_lexical_scoring` on a one-chunk store: the
chunk scores above 0.3 for the query "alpha" and is kept. -/
theorem C5_lexical_scoring_witness :
    (⟨"alpha beta gamma delta text", "f.txt", 0, "h", 27⟩,
      combined_score (pyLower "alpha") (query_word_set "alpha")
        ⟨"alpha beta gamma delta text", "f.txt", 0, "h", 27⟩) ∈
      lexical_sorted [⟨"alpha beta gamma delta text", "f.txt", 0, "h", 27⟩]
        "alpha" :=
  C5_lexical_scoring.2.2.1
    [⟨"alpha beta gamma delta text", "f.txt", 0, "h", 27⟩] "alpha"
    ⟨"alpha beta gamma delta text", "f.txt", 0, "h", 27⟩
    (List.mem_cons_self _ _)
    (of_decide_eq_true (by with_unfolding_all rfl))

/-! ## Normalisation by `clean_text` -/

/-- A list of non-whitespace characters has no adjacent whitespace pair. -/
theorem chain_of_nospace {l : List Char}
    (h : ∀ c ∈ l, pyIsSpace c = false) :
    l.Chain' (fun a b => pyIsSpace a = false ∨ pyIsSpace b = false) := by
  induction l with
  | nil => exact List.chain'_nil
  | cons c cs ih =>
    rw [List.chain'_cons']
    refine ⟨?_, ih (fun d hd => h d (List.mem_cons_of_mem c hd))⟩
    intro y hy
    exact Or.inl (h c (List.mem_cons_self c cs))

theorem intercalate_cons_exists (s x : List Char) (xs : List (List Char)) :
    ∃ t, List.intercalate s (x :: xs) = x ++ t := by
  cases xs with
  | nil => exact ⟨[], by simp [List.intercalate]⟩
  | cons y ys =>
    refine ⟨s ++ List.intercalate s (y :: ys), ?_⟩
    simp [List.intercalate]

/-- Joining non-empty whitespace-free tokens with single spaces yields a
character sequence with no two adjacent whitespace characters. -/
theorem pyJoin_chain (ws : List String)
    (hw : ∀ w ∈ ws, w.data ≠ [] ∧ ∀ c ∈ w.data, pyIsSpace c = false) :
    (pyJoin " " ws).data.Chain'
      (fun a b => pyIsSpace a = false ∨ pyIsSpace b = false) := by
  induction ws with
  | nil => simp [pyJoin, List.intercalate]
  | cons w rest ih =>
    obtain ⟨hwne, hwc⟩ := hw w (List.mem_cons_self w rest)
    have hrest := ih (fun v hv => hw v (List.mem_cons_of_mem w hv))
    cases rest with
    | nil =>
      show (List.intercalate " ".data [w.data]).Chain' _
      have h1 : List.intercalate " ".data [w.data] = w.data := by
        simp [List.intercalate]
      rw [h1]
      exact chain_of_nospace hwc
    | cons b t =>
      obtain ⟨hbne, hbc⟩ := hw b (List.mem_cons_of_mem w (List.mem_cons_self b t))
      show (List.intercalate " ".data
        (w.data :: b.data :: (t.map String.data))).Chain' _
      have h1 : List.intercalate " ".data
          (w.data :: b.data :: (t.map String.data)) =
          w.data ++ (' ' ::
            List.intercalate " ".data (b.data :: (t.map String.data))) := by
        simp [List.intercalate]
      rw [h1, List.chain'_append]
      refine ⟨chain_of_nospace hwc, ?_, ?_⟩
      · rw [List.chain'_cons']
        refine ⟨?_, hrest⟩
        intro y hy
        obtain ⟨t2, ht2⟩ :=
          intercalate_cons_exists " ".data b.data (t.map String.data)
        rw [show (pyJoin " " (b :: t)).data =
            List.intercalate " ".data (b.data :: (t.map String.data))
          from rfl] at hrest
        obtain ⟨c0, cs0, hc0⟩ : ∃ c0 cs0, b.data = c0 :: cs0 := by
          cases hd : b.data with
          | nil => exact absurd hd hbne
          | cons c0 cs0 => exact ⟨c0, cs0, rfl⟩
        rw [ht2, hc0] at hy
        simp only [List.cons_append, List.head?_cons] at hy
        rcases Option.mem_some_iff.mp hy with rfl
        exact Or.inr (hbc c0 (by rw [hc0]; exact List.mem_cons_self c0 cs0))
      · intro x hx y hy
        rcases Option.mem_some_iff.mp hy with rfl
        exact Or.inl (hwc x (List.mem_of_getLast?_eq_some hx))

/-- `clean_text` output has no two adjacent whitespace characters. -/
theorem clean_text_chain (text : String) :
    (clean_text text).data.Chain'
      (fun a b => pyIsSpace a = false ∨ pyIsSpace b = false) := by
  unfold clean_text
  by_cases h0 : text = ""
  · rw [if_pos h0]
    exact List.chain'_nil
  · rw [if_neg h0]
    have hj := pyJoin_chain (pySplit text) (pySplit_good text)
    by_cases hlen : pyLen (pyJoin " " (pySplit text)) > 500
    · rw [if_pos hlen]
      show ((pyJoin " " (pySplit text)).data.take 497 ++ "...".data).Chain' _
      rw [List.chain'_append]
      refine ⟨List.Chain'.take hj 497, ?_, ?_⟩
      · show (['.', '.', '.'] : List Char).Chain' _
        exact List.chain'_cons.mpr ⟨Or.inl (by decide),
          List.chain'_cons.mpr ⟨Or.inl (by decide), List.chain'_singleton _⟩⟩
      · intro x hx y hy
        rcases Option.mem_some_iff.mp hy with rfl
        exact Or.inr (by decide)
    · rw [if_neg hlen]
      exact hj

/-- `clean_text` output never exceeds 500 characters. -/
theorem clean_text_length (text : String) : pyLen (clean_text text) ≤ 500 := by
  unfold clean_text
  by_cases h0 : text = ""
  · rw [if_pos h0]
    decide
  · rw [if_neg h0]
    by_cases hlen : pyLen (pyJoin " " (pySplit text)) > 500
    · rw [if_pos hlen]
      show ((pyJoin " " (pySplit text)).data.take 497 ++ "...".data).length ≤ 500
      rw [List.length_append, List.length_take]
      have h3 : ("...".data).length = 3 := rfl
      omega
    · rw [if_neg hlen]
      unfold pyLen at hlen ⊢
      omega

/-- Every enhanced knowledge-base answer is a `clean_text` output. -/
theorem enhance_answer_with_gemini_shape (k : Option String)
    (o : GeminiOutcome) (q c a : String)
    (h : enhance_answer_with_gemini k o q c = some a) :
    ∃ t, a = clean_text t := by
  match k with
  | none => simp [enhance_answer_with_gemini] at h
  | some key =>
    match o with
    | .timeout => simp [enhance_answer_with_gemini] at h
    | .connectionError => simp [enhance_answer_with_gemini] at h
    | .exception => simp [enhance_answer_with_gemini] at h
    | .http status body =>
      match body with
      | none => simp [enhance_answer_with_gemini] at h
      | some t =>
        simp only [enhance_answer_with_gemini] at h
        split at h
        · split at h
          · exact ⟨t, (Option.some_injective _ h).symm⟩
          · simp at h
        · simp at h

/-- Every enhanced search answer is a `search_clean_text` output. -/
theorem enhance_with_gemini_shape (k : Option String) (o : GeminiOutcome)
    (q c a : String) (h : enhance_with_gemini k o q c = some a) :
    ∃ t, a = search_clean_text t := by
  match k with
  | none => simp [enhance_with_gemini] at h
  | some key =>
    by_cases hkey : key = "your-gemini-api-key"
    · simp [enhance_with_gemini, hkey] at h
    · match o with
      | .timeout => simp [enhance_with_gemini, hkey] at h
      | .connectionError => simp [enhance_with_gemini, hkey] at h
      | .exception => simp [enhance_with_gemini, hkey] at h
      | .http status body =>
        match body with
        | none => simp [enhance_with_gemini, hkey] at h
        | some t =>
          simp only [enhance_with_gemini] at h
          rw [if_neg hkey] at h
          split at h
          · exact ⟨t, (Option.some_injective _ h).symm⟩
          · simp at h

/-- C10: both `clean_text` copies agree; their output collapses whitespace
runs (no two adjacent whitespace characters remain), truncates anything
longer than 500 characters to its first 497 plus "...", and never exceeds 500
characters; every answer produced by either generative enhancement path is
such an output, hence never exceeds 500 characters. -/
theorem C10_enhanced_answers_normalized :
    (∀ text, search_clean_text text = clean_text text) ∧
    (∀ text, pyLen (clean_text text) ≤ 500) ∧
    (∀ text, (clean_text text).data.Chain'
      (fun a b => pyIsSpace a = false ∨ pyIsSpace b = false)) ∧
    (∀ text, text ≠ "" → 500 < pyLen (pyJoin " " (pySplit text)) →
      clean_text text =
        pyConcat (pyTake (pyJoin " " (pySplit text)) 497) "...") ∧
    (∀ k o q c a, enhance_answer_with_gemini k o q c = some a →
      ∃ t, a = clean_text t) ∧
    (∀ k o q c a, enhance_with_gemini k o q c = some a →
      ∃ t, a = clean_text t) ∧
    (∀ k o q c a, enhance_answer_with_gemini k o q c = some a →
      pyLen a ≤ 500) ∧
    (∀ k o q c a, enhance_with_gemini k o q c = some a → pyLen a ≤ 500) := by
  have hsame : ∀ text, search_clean_text text = clean_text text :=
    fun text => rfl
  refine ⟨hsame, clean_text_length, clean_text_chain, ?_, ?_, ?_, ?_, ?_⟩
  · intro text h0 hlen
    unfold clean_text
    rw [if_neg h0, if_pos hlen]
  · exact enhance_answer_with_gemini_shape
  · intro k o q c a h
    obtain ⟨t, rfl⟩ := enhance_with_gemini_shape k o q c a h
    exact ⟨t, hsame t⟩
  · intro k o q c a h
    obtain ⟨t, rfl⟩ := enhance_answer_with_gemini_shape k o q c a h
    exact clean_text_length t
  · intro k o q c a h
    obtain ⟨t, rfl⟩ := enhance_with_gemini_shape k o q c a h
    rw [hsame t]
    exact clean_text_length t

set_option maxRecDepth 100000 in
/-- Concrete instantiation of `C10_enhanced_answers_normalized`: a 520
character input is truncated to 497 characters plus "...", and a successful
enhancement outcome yields a `clean_text` answer within the bound. -/
theorem C10_enhanced_answers_normalized_witness :
    clean_text
        "aaaaaaaaaaaaaaaaaaaaaaaaaaaaaaaaaaaaaaaaaaaaaaaaaaaaaaaaaaaaaaaaaaaaaaaaaaaaaaaaaaaaaaaaaaaaaaaaaaaaaaaaaaaaaaaaaaaaaaaaaaaaaaaaaaaaaaaaaaaaaaaaaaaaaaaaaaaaaaaaaaaaaaaaaaaaaaaaaaaaaaaaaaaaaaaaaaaaaaaaaaaaaaaaaaaaaaaaaaaaaaaaaaaaaaaaaaaaaaaaaaaaaaaaaaaaaaaaaaaaaaaaaaaaaaaaaaaaaaaaaaaaaaaaaaaaaaaaaaaaaaaaaaaaaaaaaaaaaaaaaaaaaaaaaaaaaaaaaaaaaaaaaaaaaaaaaaaaaaaaaaaaaaaaaaaaaaaaaaaaaaaaaaaaaaaaaaaaaaaaaaaaaaaaaaaaaaaaaaaaaaaaaaaaaaaaaaaaaaaaaaaaaaaaaaaaaaaaaaaaaaaaaaaaaaaaaaaaaaaaaaaaaaaaaaaaaaaaaaaaaaaaaaaaaaaaaaaaaaaa" =
      pyConcat
        (pyTake (pyJoin " " (pySplit
          "aaaaaaaaaaaaaaaaaaaaaaaaaaaaaaaaaaaaaaaaaaaaaaaaaaaaaaaaaaaaaaaaaaaaaaaaaaaaaaaaaaaaaaaaaaaaaaaaaaaaaaaaaaaaaaaaaaaaaaaaaaaaaaaaaaaaaaaaaaaaaaaaaaaaaaaaaaaaaaaaaaaaaaaaaaaaaaaaaaaaaaaaaaaaaaaaaaaaaaaaaaaaaaaaaaaaaaaaaaaaaaaaaaaaaaaaaaaaaaaaaaaaaaaaaaaaaaaaaaaaaaaaaaaaaaaaaaaaaaaaaaaaaaaaaaaaaaaaaaaaaaaaaaaaaaaaaaaaaaaaaaaaaaaaaaaaaaaaaaaaaaaaaaaaaaaaaaaaaaaaaaaaaaaaaaaaaaaaaaaaaaaaaaaaaaaaaaaaaaaaaaaaaaaaaaaaaaaaaaaaaaaaaaaaaaaaaaaaaaaaaaaaaaaaaaaaaaaaaaaaaaaaaaaaaaaaaaaaaaaaaaaaaaaaaaaaaaaaaaaaaaaaaaaaaaaaaaaaaaaa")) 497)
        "..." ∧
    pyLen (clean_text "aaaaaaaaaaaaaaaaaaaaaaaaaaaaaaaaaaaaaaaaaaaaaaaaaaaaaaaaaaaaaaaaaaaaaaaaaaaaaaaaaaaaaaaaaaaaaaaaaaaaaaaaaaaaaaaaaaaaaaaaaaaaaaaaaaaaaaaaaaaaaaaaaaaaaaaaaaaaaaaaaaaaaaaaaaaaaaaaaaaaaaaaaaaaaaaaaaaaaaaaaaaaaaaaaaaaaaaaaaaaaaaaaaaaaaaaaaaaaaaaaaaaaaaaaaaaaaaaaaaaaaaaaaaaaaaaaaaaaaaaaaaaaaaaaaaaaaaaaaaaaaaaaaaaaaaaaaaaaaaaaaaaaaaaaaaaaaaaaaaaaaaaaaaaaaaaaaaaaaaaaaaaaaaaaaaaaaaaaaaaaaaaaaaaaaaaaaaaaaaaaaaaaaaaaaaaaaaaaaaaaaaaaaaaaaaaaaaaaaaaaaaaaaaaaaaaaaaaaaaaaaaaaaaaaaaaaaaaaaaaaaaaaaaaaaaaaaaaaaaaaaaaaaaaaaaaaaaaaaaa") ≤ 500 ∧
    enhance_answer_with_gemini (some "k")
        (GeminiOutcome.http 200
          (some "The capital of France is Paris, a large city"))
        "q" "ctx" =
      some (clean_text "The capital of France is Paris, a large city") ∧
    pyLen (clean_text "The capital of France is Paris, a large city") ≤ 500 :=
  ⟨C10_enhanced_answers_normalized.2.2.2.1
      "aaaaaaaaaaaaaaaaaaaaaaaaaaaaaaaaaaaaaaaaaaaaaaaaaaaaaaaaaaaaaaaaaaaaaaaaaaaaaaaaaaaaaaaaaaaaaaaaaaaaaaaaaaaaaaaaaaaaaaaaaaaaaaaaaaaaaaaaaaaaaaaaaaaaaaaaaaaaaaaaaaaaaaaaaaaaaaaaaaaaaaaaaaaaaaaaaaaaaaaaaaaaaaaaaaaaaaaaaaaaaaaaaaaaaaaaaaaaaaaaaaaaaaaaaaaaaaaaaaaaaaaaaaaaaaaaaaaaaaaaaaaaaaaaaaaaaaaaaaaaaaaaaaaaaaaaaaaaaaaaaaaaaaaaaaaaaaaaaaaaaaaaaaaaaaaaaaaaaaaaaaaaaaaaaaaaaaaaaaaaaaaaaaaaaaaaaaaaaaaaaaaaaaaaaaaaaaaaaaaaaaaaaaaaaaaaaaaaaaaaaaaaaaaaaaaaaaaaaaaaaaaaaaaaaaaaaaaaaaaaaaaaaaaaaaaaaaaaaaaaaaaaaaaaaaaaaaaaaaaa"
      (by decide) (by decide),
    C10_enhanced_answers_normalized.2.1
      "aaaaaaaaaaaaaaaaaaaaaaaaaaaaaaaaaaaaaaaaaaaaaaaaaaaaaaaaaaaaaaaaaaaaaaaaaaaaaaaaaaaaaaaaaaaaaaaaaaaaaaaaaaaaaaaaaaaaaaaaaaaaaaaaaaaaaaaaaaaaaaaaaaaaaaaaaaaaaaaaaaaaaaaaaaaaaaaaaaaaaaaaaaaaaaaaaaaaaaaaaaaaaaaaaaaaaaaaaaaaaaaaaaaaaaaaaaaaaaaaaaaaaaaaaaaaaaaaaaaaaaaaaaaaaaaaaaaaaaaaaaaaaaaaaaaaaaaaaaaaaaaaaaaaaaaaaaaaaaaaaaaaaaaaaaaaaaaaaaaaaaaaaaaaaaaaaaaaaaaaaaaaaaaaaaaaaaaaaaaaaaaaaaaaaaaaaaaaaaaaaaaaaaaaaaaaaaaaaaaaaaaaaaaaaaaaaaaaaaaaaaaaaaaaaaaaaaaaaaaaaaaaaaaaaaaaaaaaaaaaaaaaaaaaaaaaaaaaaaaaaaaaaaaaaaaaaaaaaaaa",
    by decide,
    C10_enhanced_answers_normalized.2.2.2.2.2.2.1 (some "k")
      (GeminiOutcome.http 200
        (some "The capital of France is Paris, a large city"))
      "q" "ctx" (clean_text "The capital of France is Paris, a large city")
      (by decide)⟩
